import Mathlib

/-!
Shallow embedding of the Hexquest-Sessions territory-game core
(`src/types.ts`, `src/constants.ts`, `src/gameEngine/rules.ts`,
`src/gameEngine/ai.ts`, the hex/path utilities of `src/unnamed/part_000`'s
sibling module, and the session store `src/store.ts`), together with
theorems settling the frozen claims about that code.

Modelling conventions:
* JS numbers holding integral game quantities (levels, coins, moves,
  coordinates, costs, timestamps) are `Int`; `Math.floor(x / 2)` is `Int.fdiv`.
* AI utility scores, which carry fractional weights (1.5, 1.2, ...), are exact
  rationals represented as numerator/positive-denominator pairs (`Score`)
  compared by cross-multiplication; all score arithmetic in the source is
  `+ - *` on such values, so the embedding computes the exact real values the
  float code approximates.
* The canonical string key `"q,r"` is modelled by the pair `(q, r)`, which the
  string encoding is in bijection with.
* JS objects used as string-keyed records (`grid`, `distances`, `previous`)
  are association lists in insertion order - JS object key order for such keys
  is insertion order, updates keep the slot, new keys append.
* JS `Set` is a duplicate-free list in insertion order.
* The unbounded `while` loops of the Dijkstra search are given explicit fuel:
  the search loop's fuel is exactly its own `MAX_ITERATIONS` counter, and the
  path-reconstruction walk gets fuel `previous.length + 1`, an upper bound on
  the length of any acyclic `previous` chain, so the fuel never alters the
  value computed by the source on terminating runs.
* Structured reason strings / toast strings / log strings are modelled by
  inductive types carrying the same data.
-/

namespace Hexquest

/-- Axial coordinate plus the optional `upgrade` tag carried by
movement-queue entries (`HexCoord` in `types.ts`); an absent JS `upgrade`
property reads as `false`. -/
structure HexCoord where
  q : Int
  r : Int
  upgrade : Bool
deriving DecidableEq, Repr

/-- Canonical tile key; the source encodes the pair as the string `"q,r"`. -/
abbrev HexKey := Int × Int

/-- `getHexKey` of the hex utilities module. -/
def getHexKey (q r : Int) : HexKey := (q, r)

/-- `getCoordinatesFromKey`: parse a key back into a coordinate. -/
def getCoordinatesFromKey (k : HexKey) : HexCoord :=
  { q := k.1, r := k.2, upgrade := false }

/-- A discovered tile (`Hex` in `types.ts`). -/
structure Hex where
  id : HexKey
  q : Int
  r : Int
  currentLevel : Int
  maxLevel : Int
  progress : Int
  revealed : Bool
deriving DecidableEq, Repr

-- constants.ts
def EXCHANGE_RATE_COINS_PER_MOVE : Int := 2
def SECONDS_PER_LEVEL_UNIT : Int := 5
def UPGRADE_LOCK_QUEUE_SIZE : Nat := 3
def BOT_ACTION_INTERVAL_MS : Int := 1000
def INITIAL_MOVES : Int := 0
def INITIAL_COINS : Int := 0

/-- The sparse tile map `Record<string, Hex>`: an association list in JS
object insertion order. -/
abbrev Grid := List (HexKey × Hex)

/-- Lookup in a string-keyed JS record (`grid[key]`, `distances[key]`...). -/
def lookupKey {α : Type} : List (HexKey × α) → HexKey → Option α
  | [], _ => none
  | (k', v) :: rest, k => if k' = k then some v else lookupKey rest k

/-- JS record assignment `obj[key] = v`: overwrite in place, else append. -/
def writeKey {α : Type} : List (HexKey × α) → HexKey → α → List (HexKey × α)
  | [], k, v => [(k, v)]
  | (k', v') :: rest, k, v =>
      if k' = k then (k, v) :: rest else (k', v') :: writeKey rest k v

/-- `cubeDistance` of the hex utilities module: half the cube-coordinate
Manhattan distance (the sum of the three absolute differences is even, so
the JS division by 2 is exact). -/
def cubeDistance (a b : HexCoord) : Int :=
  (((a.q - b.q).natAbs + (a.q + a.r - b.q - b.r).natAbs + (a.r - b.r).natAbs : Nat) : Int) / 2

/-- `getNeighbors`: the 6 adjacent coordinates in the source's fixed order. -/
def getNeighbors (q r : Int) : List HexCoord :=
  [⟨q + 1, r, false⟩, ⟨q + 1, r - 1, false⟩, ⟨q, r - 1, false⟩,
   ⟨q - 1, r, false⟩, ⟨q - 1, r + 1, false⟩, ⟨q, r + 1, false⟩]

-- gameEngine/rules.ts

/-- `calculateReward`: `(coins, moves)` for reaching `newHexLevel`. -/
def calculateReward (newHexLevel : Int) : Int × Int := (newHexLevel, 1)

/-- `getSecondsToGrow`. -/
def getSecondsToGrow (targetLevel : Int) : Int := targetLevel * SECONDS_PER_LEVEL_UNIT

/-- The structured failure reason of `checkGrowthCondition`; the source
renders these as the strings "CYCLE INCOMPLETE (h/n)" and
"RANK TOO LOW (NEED Lk)". -/
inductive GrowthBlock where
  | cycleIncomplete (haveCount needCount : Nat)
  | rankTooLow (needLevel : Int)
deriving DecidableEq, Repr

/-- Result record of `checkGrowthCondition`. -/
structure GrowthCheck where
  canGrow : Bool
  reason : Option GrowthBlock
deriving DecidableEq, Repr

inductive EntityType where
  | PLAYER
  | BOT
deriving DecidableEq, Repr

/-- An exact rational utility score: numerator over a (by construction
always positive) denominator. Every score the AI computes is built from
integer data and the fractional weights by `+ - *`, so these are the exact
values of the source's float arithmetic. -/
structure Score where
  num : Int
  den : Int
deriving DecidableEq, Repr

def Score.ofInt (n : Int) : Score := ⟨n, 1⟩

instance : IntCast Score := ⟨Score.ofInt⟩

instance (n : Nat) : OfNat Score n := ⟨⟨n, 1⟩⟩

instance : Add Score := ⟨fun a b => ⟨a.num * b.den + b.num * a.den, a.den * b.den⟩⟩

instance : Sub Score := ⟨fun a b => ⟨a.num * b.den - b.num * a.den, a.den * b.den⟩⟩

instance : Mul Score := ⟨fun a b => ⟨a.num * b.num, a.den * b.den⟩⟩

instance : Neg Score := ⟨fun a => ⟨-a.num, a.den⟩⟩

/-- `a <= b` on scores (cross-multiplication; denominators are positive). -/
def Score.ble (a b : Score) : Bool := a.num * b.den ≤ b.num * a.den

/-- `a < b` on scores. -/
def Score.blt (a b : Score) : Bool := a.num * b.den < b.num * a.den

/-- `BotMemory` of `types.ts`. -/
structure BotMemory where
  lastPlayerPos : Option HexCoord
  chokePoints : List HexKey
  aggressionFactor : Score
deriving DecidableEq, Repr

/-- `Entity` of `types.ts` (player or bot). -/
structure Entity where
  id : String
  type : EntityType
  q : Int
  r : Int
  playerLevel : Int
  coins : Int
  totalCoinsEarned : Int
  moves : Int
  recentUpgrades : List HexKey
  movementQueue : List HexCoord
  memory : Option BotMemory
deriving DecidableEq, Repr

/-- `checkGrowthCondition` of `gameEngine/rules.ts`. -/
def checkGrowthCondition (hex : Hex) (entity : Entity) : GrowthCheck :=
  let targetLevel := hex.currentLevel + 1
  if targetLevel > hex.maxLevel then
    if targetLevel = 1 then { canGrow := true, reason := none }
    else if entity.recentUpgrades.length < UPGRADE_LOCK_QUEUE_SIZE then
      { canGrow := false
        reason := some (.cycleIncomplete entity.recentUpgrades.length UPGRADE_LOCK_QUEUE_SIZE) }
    else if entity.playerLevel < targetLevel - 1 then
      { canGrow := false, reason := some (.rankTooLow (targetLevel - 1)) }
    else { canGrow := true, reason := none }
  else { canGrow := true, reason := none }

-- Pathfinding (`findPath` of the hex utilities module).

/-- Stable insertion of `x` into a list sorted by the boolean preorder `le`:
`x` goes in front of the first element it is `le` to, i.e. after every
strictly smaller element and before equal ones. -/
def stableInsert {α : Type} (le : α → α → Bool) (x : α) : List α → List α
  | [] => [x]
  | y :: ys => if le x y then x :: y :: ys else y :: stableInsert le x ys

/-- Stable sort by a total boolean preorder. A stable sort is uniquely
determined by the comparator, so this models the (spec-mandated stable)
JS `Array.prototype.sort`. -/
def stableSort {α : Type} (le : α → α → Bool) (l : List α) : List α :=
  l.foldr (stableInsert le) []

/-- An entry of the search's naive priority queue. -/
structure PQEntry where
  key : HexKey
  priority : Int
deriving DecidableEq, Repr

/-- `a.priority - b.priority` ascending comparator of the source's
`priorityQueue.sort`. -/
def lePQ (a b : PQEntry) : Bool := a.priority ≤ b.priority

/-- The step cost into a coordinate:
`(hex && hex.maxLevel >= 2) ? hex.maxLevel : 1` (shared verbatim by
`findPath`, `movePlayer`, the bot tick and the AI's real-cost check). -/
def stepCostOf (grid : Grid) (k : HexKey) : Int :=
  match lookupKey grid k with
  | some h => if h.maxLevel ≥ 2 then h.maxLevel else 1
  | none => 1

/-- The rank lock `hex && hex.maxLevel > playerRank`. -/
def rankLocked (grid : Grid) (playerRank : Int) (k : HexKey) : Bool :=
  match lookupKey grid k with
  | some h => h.maxLevel > playerRank
  | none => false

/-- Mutable state of the Dijkstra loop. -/
structure SearchState where
  distances : List (HexKey × Int)
  previous : List (HexKey × Option HexCoord)
  pq : List PQEntry
deriving DecidableEq, Repr

/-- Relax one neighbor of the popped node `curKey` (the body of the
`for (const neighbor of neighbors)` loop in `findPath`). -/
def relaxNeighbor (grid : Grid) (playerRank : Int) (obstacleKeys : List HexKey)
    (curKey : HexKey) (st : SearchState) (n : HexCoord) : SearchState :=
  let nKey := getHexKey n.q n.r
  if nKey ∈ obstacleKeys then st
  else if rankLocked grid playerRank nKey then st
  else
    let newDist := (lookupKey st.distances curKey).getD 0 + stepCostOf grid nKey
    match lookupKey st.distances nKey with
    | none =>
      { distances := writeKey st.distances nKey newDist
        previous := writeKey st.previous nKey (some (getCoordinatesFromKey curKey))
        pq := st.pq ++ [⟨nKey, newDist⟩] }
    | some d =>
      if newDist < d then
        { distances := writeKey st.distances nKey newDist
          previous := writeKey st.previous nKey (some (getCoordinatesFromKey curKey))
          pq := st.pq ++ [⟨nKey, newDist⟩] }
      else st

/-- Expand a popped node: relax its six neighbors in order. -/
def expandNode (grid : Grid) (playerRank : Int) (obstacleKeys : List HexKey)
    (curKey : HexKey) (st : SearchState) : SearchState :=
  (getNeighbors curKey.1 curKey.2).foldl (relaxNeighbor grid playerRank obstacleKeys curKey) st

/-- The backward walk that rebuilds the path from `previous`
(`while (current && getHexKey(...) !== startKey) { path.unshift(current); ... }`).
Fuel bounds the walk; the caller passes `previous.length + 1`, which covers
any acyclic chain, so the fuel is inert on the runs the source performs. -/
def reconstructPath (previous : List (HexKey × Option HexCoord)) (startKey : HexKey) :
    Nat → Option HexCoord → List HexCoord → List HexCoord
  | _, none, acc => acc
  | 0, some _, acc => acc
  | fuel + 1, some c, acc =>
    if getHexKey c.q c.r = startKey then acc
    else
      reconstructPath previous startKey fuel
        ((lookupKey previous (getHexKey c.q c.r)).join) (c :: acc)

/-- How the main `while (priorityQueue.length > 0)` loop ends. -/
inductive LoopExit where
  | found (path : List HexCoord)
  | exhausted
  | capped
deriving DecidableEq, Repr

def MAX_ITERATIONS : Nat := 3000

/-- The Dijkstra loop of `findPath`. `fuel` is the number of iterations the
`MAX_ITERATIONS` guard still allows: iteration `n` of the source has
`iterations = n` and bails out when `n > MAX_ITERATIONS`, i.e. exactly when
fuel `MAX_ITERATIONS - (n - 1)` has reached 0 with a nonempty queue. -/
def findPathLoop (grid : Grid) (playerRank : Int) (obstacleKeys : List HexKey)
    (startKey endKey : HexKey) (dest : HexCoord) :
    Nat → SearchState → LoopExit
  | fuel, st =>
    match st.pq with
    | [] => .exhausted
    | _ :: _ =>
      match fuel with
      | 0 => .capped
      | fuel' + 1 =>
        match stableSort lePQ st.pq with
        | [] => .exhausted
        | e :: rest =>
          if e.key = endKey then
            .found (reconstructPath st.previous startKey (st.previous.length + 1) (some dest) [])
          else
            findPathLoop grid playerRank obstacleKeys startKey endKey dest fuel'
              (expandNode grid playerRank obstacleKeys e.key { st with pq := rest })

/-- The initial search state of `findPath`. -/
def initialSearchState (startKey : HexKey) : SearchState :=
  { distances := [(startKey, 0)]
    previous := [(startKey, none)]
    pq := [⟨startKey, 0⟩] }

/-- The full Dijkstra run of `findPath`, from the initial state with the
`MAX_ITERATIONS` budget. -/
def findPathRun (start dest : HexCoord) (grid : Grid) (playerRank : Int)
    (obstacles : List HexCoord) : LoopExit :=
  findPathLoop grid playerRank (obstacles.map (fun o => getHexKey o.q o.r))
    (getHexKey start.q start.r) (getHexKey dest.q dest.r) dest MAX_ITERATIONS
    (initialSearchState (getHexKey start.q start.r))

/-- `findPath` of the hex utilities module (`src/unnamed/part_007`, first
revision): Dijkstra over the implicit infinite grid with obstacle and rank
exclusion, an iteration cap, and the adjacent-destination fallback reached
when the queue exhausts. -/
def findPath (start dest : HexCoord) (grid : Grid) (playerRank : Int)
    (obstacles : List HexCoord) : Option (List HexCoord) :=
  let startKey := getHexKey start.q start.r
  let endKey := getHexKey dest.q dest.r
  if startKey = endKey then none
  else
    let obstacleKeys := obstacles.map (fun o => getHexKey o.q o.r)
    if endKey ∈ obstacleKeys then none
    else
      match findPathRun start dest grid playerRank obstacles with
      | .found p => some p
      | .capped => none
      | .exhausted =>
        if cubeDistance start dest = 1 ∧ endKey ∉ obstacleKeys then some [dest] else none

-- Opponent AI (`gameEngine/ai.ts`).

inductive WinType where
  | WEALTH
  | DOMINATION
deriving DecidableEq, Repr

structure WinCondition where
  type : WinType
  target : Int
  label : String
  botCount : Nat
deriving DecidableEq, Repr

-- WEIGHTS of ai.ts (1.0, 3.0, 1.5, 2.0, 1.2) as exact rationals.
def WEIGHTS_INCOME : Score := ⟨1, 1⟩
def WEIGHTS_POSITION : Score := ⟨3, 1⟩
def WEIGHTS_RISK : Score := ⟨3, 2⟩
def WEIGHTS_DISTANCE : Score := ⟨2, 1⟩
def WEIGHTS_AGGRESSION : Score := ⟨6, 5⟩

inductive BotRole where
  | SURVIVAL
  | EXPAND
  | EVOLUTION
  | COMPETITION
  | DEVELOPMENT
deriving DecidableEq, Repr

structure ScoredCandidate where
  coord : HexCoord
  score : Score
  role : BotRole
  estimatedCost : Int
deriving DecidableEq, Repr

/-- The total spendable resource `moves + Math.floor(coins / exchangeRate)`,
computed identically at each use site in `ai.ts`. -/
def totalResourcesOf (ent : Entity) : Int :=
  ent.moves + Int.fdiv ent.coins EXCHANGE_RATE_COINS_PER_MOVE

/-- `determineRole` of `ai.ts` (its `player`/`grid` parameters are unused by
the source body as well). -/
def determineRole (bot : Entity) (winCondition : Option WinCondition) : BotRole :=
  let totalResources := totalResourcesOf bot
  let queueSize := bot.recentUpgrades.length
  if totalResources < 3 then .SURVIVAL
  else if queueSize < UPGRADE_LOCK_QUEUE_SIZE then .EXPAND
  else if bot.playerLevel < 3 then .EVOLUTION
  else if (winCondition.map WinCondition.type = some .DOMINATION) ∧ totalResources ≥ 5 then
    .DEVELOPMENT
  else if totalResources ≥ 5 then .DEVELOPMENT
  else .COMPETITION

/-- The mode level cap `(winCondition?.type === 'DOMINATION') ? 99 : 7`. -/
def levelCapOf (winCondition : Option WinCondition) : Int :=
  if winCondition.map WinCondition.type = some .DOMINATION then 99 else 7

/-- `calculateHexUtility` of `ai.ts` (`Math.pow(x, 2)` is written `x * x`). -/
def calculateHexUtility (targetHex : Hex) (bot : Entity) (role : BotRole) (dist : Int)
    (totalResources : Int) (winCondition : Option WinCondition) : Score :=
  let isQueued := targetHex.id ∈ bot.recentUpgrades
  let levelCap := levelCapOf winCondition
  -- A. strategic value
  let strategicValue : Score :=
    match role with
    | .SURVIVAL =>
      if targetHex.maxLevel = 0 then 200
      else if targetHex.maxLevel ≤ 1 then 50
      else 0
    | .EXPAND =>
      if targetHex.maxLevel = 0 then 200
      else if dist = 0 then 0
      else -500
    | .EVOLUTION =>
      if targetHex.maxLevel = bot.playerLevel then 150 else -50
    | .DEVELOPMENT =>
      if targetHex.maxLevel ≥ 2 ∧ targetHex.maxLevel < levelCap then
        ((100 : Score) + ((targetHex.maxLevel * targetHex.maxLevel : Int) : Score) * 10)
          + (if targetHex.maxLevel = bot.playerLevel then 100 else 0)
          + (if winCondition.map WinCondition.type = some .DOMINATION ∧
                targetHex.maxLevel = bot.playerLevel then 1000 else 0)
      else if targetHex.maxLevel = 0 then -100
      else -50
    | .COMPETITION =>
      if ¬isQueued ∧ targetHex.maxLevel = 0 then
        (50 : Score) +
          (match bot.memory with
           | some m =>
             match m.lastPlayerPos with
             | some p =>
               ((15 : Score) - ((cubeDistance ⟨targetHex.q, targetHex.r, false⟩ p : Int) : Score)) *
                 WEIGHTS_AGGRESSION
             | none => 0
           | none => 0)
      else -20
  let u1 : Score := strategicValue * WEIGHTS_POSITION
  -- B. income gain
  let nextLevel := targetHex.maxLevel + 1
  let potentialIncome : Score := ((nextLevel * nextLevel : Int) : Score) * ⟨3, 2⟩
  let u2 := u1 + potentialIncome * WEIGHTS_INCOME
  -- C. risk & cost
  let entryCost : Int := if targetHex.maxLevel ≥ 2 then targetHex.maxLevel else 1
  let travelCost : Int := max 0 (dist - 1)
  let totalEstimatedCost := travelCost + entryCost
  let u3 : Score :=
    if totalEstimatedCost > totalResources then u2 - 5000 * WEIGHTS_RISK
    else u2 - ((totalEstimatedCost : Int) : Score) * WEIGHTS_RISK
  -- D. distance
  let u4 : Score :=
    if role = .EXPAND ∧ targetHex.maxLevel = 0 then
      u3 - ((dist : Int) : Score) * (WEIGHTS_DISTANCE * 5)
    else u3 - ((dist : Int) : Score) * WEIGHTS_DISTANCE
  -- E. special modifiers
  let growthCheck := checkGrowthCondition targetHex bot
  let u5 : Score :=
    if dist = 0 ∧ growthCheck.canGrow = true then
      u4 + 50 +
        (if (role = .DEVELOPMENT ∨ role = .EVOLUTION) ∧ targetHex.maxLevel ≥ 2 then 1000 else 0)
    else u4
  let u6 : Score :=
    if growthCheck.canGrow = false ∧ targetHex.maxLevel > 0 then u5 - 200 else u5
  if targetHex.maxLevel ≥ levelCap then u6 - ((targetHex.maxLevel - levelCap : Int) : Score) * 100
  else u6

/-- The candidate scan of `calculateBotMove` (`for (const key in grid)`),
in grid insertion order. -/
def scanCandidates (grid : Grid) (bot : Entity) (player : Entity) (currentRole : BotRole)
    (totalResources : Int) (winCondition : Option WinCondition) : List ScoredCandidate :=
  let botHexKey := getHexKey bot.q bot.r
  grid.foldl
    (fun acc kv =>
      let hex := kv.2
      if currentRole = .EXPAND ∧ hex.maxLevel > 0 ∧ kv.1 ≠ botHexKey then acc
      else if hex.maxLevel > bot.playerLevel ∧
          ¬(currentRole = .DEVELOPMENT ∧ hex.maxLevel = bot.playerLevel + 1) then acc
      else if hex.q = player.q ∧ hex.r = player.r then acc
      else
        let dist := cubeDistance ⟨bot.q, bot.r, false⟩ ⟨hex.q, hex.r, false⟩
        let searchRadius : Int := if currentRole = .SURVIVAL then 4 else 15
        if dist > searchRadius then acc
        else
          let score := calculateHexUtility hex bot currentRole dist totalResources winCondition
          if Score.blt (-5000) score then
            acc ++ [{ coord := ⟨hex.q, hex.r, false⟩, score := score, role := currentRole
                      estimatedCost := (if hex.maxLevel ≥ 2 then hex.maxLevel else 1) + (dist - 1) }]
          else acc)
    []

/-- The real total movement cost of a path, as summed by `calculateBotMove`'s
validation loop (and, identically, by `movePlayer`). -/
def realPathCost (grid : Grid) (path : List HexCoord) : Int :=
  path.foldl (fun c step => c + stepCostOf grid (getHexKey step.q step.r)) 0

/-- `b.score - a.score` descending comparator of `candidates.sort`. -/
def leScore (a b : ScoredCandidate) : Bool := Score.ble b.score a.score

/-- The top-K validation loop of `calculateBotMove` (step 4): first candidate
whose real path exists and fits the budget wins; a stay-put candidate turns
into an in-place upgrade when growth is legal. -/
def validateCandidates (bot : Entity) (grid : Grid) (obstacles : List HexCoord)
    (totalResources : Int) (currentHex : Option Hex) :
    List ScoredCandidate → Option (List HexCoord)
  | [] => none
  | c :: rest =>
    if c.coord.q = bot.q ∧ c.coord.r = bot.r then
      match currentHex with
      | some h =>
        if (checkGrowthCondition h bot).canGrow then some [⟨bot.q, bot.r, true⟩]
        else validateCandidates bot grid obstacles totalResources currentHex rest
      | none => validateCandidates bot grid obstacles totalResources currentHex rest
    else
      match findPath ⟨bot.q, bot.r, false⟩ c.coord grid bot.playerLevel obstacles with
      | some path =>
        if realPathCost grid path ≤ totalResources then some path
        else validateCandidates bot grid obstacles totalResources currentHex rest
      | none => validateCandidates bot grid obstacles totalResources currentHex rest

/-- `calculateBotMove` of `gameEngine/ai.ts`. (Its `ownedHexCount` scan is
dead data in the source: computed, passed to `calculateHexUtility`, and never
read there, so it is omitted from the embedding.) -/
def calculateBotMove (bot : Entity) (grid : Grid) (player : Entity)
    (winCondition : Option WinCondition) (obstacles : List HexCoord) :
    Option (List HexCoord) :=
  let botHexKey := getHexKey bot.q bot.r
  let currentHex := lookupKey grid botHexKey
  -- 0. commitment check
  let commit : Bool :=
    match currentHex with
    | some ch => ch.progress > 0 && ch.maxLevel < 99
    | none => false
  if commit then some [⟨bot.q, bot.r, true⟩]
  else
    let totalResources := totalResourcesOf bot
    let currentRole := determineRole bot winCondition
    -- 1.+2. scan, score and rank candidates
    let candidates := scanCandidates grid bot player currentRole totalResources winCondition
    let sorted := stableSort leScore candidates
    -- 3. in-place upgrade checks
    let growthCanGrow : Bool :=
      match currentHex with
      | some ch => (checkGrowthCondition ch bot).canGrow
      | none => false
    if totalResources < 1 && growthCanGrow then some [⟨bot.q, bot.r, true⟩]
    else
      let levelCap := levelCapOf winCondition
      let strategicStay : Bool :=
        (currentRole = BotRole.DEVELOPMENT || currentRole = BotRole.EVOLUTION) &&
          (match currentHex with
           | some ch =>
             ch.maxLevel ≥ 2 && ch.maxLevel < levelCap &&
               (checkGrowthCondition ch bot).canGrow
           | none => false)
      if strategicStay then some [⟨bot.q, bot.r, true⟩]
      else
        -- 4. path validation over the top candidates
        let checkCount : Nat := if currentRole = .SURVIVAL then 15 else 5
        validateCandidates bot grid obstacles totalResources currentHex (sorted.take checkCount)

-- Session store (`src/store.ts`).

inductive UIState where
  | MENU
  | GAME
  | LEADERBOARD
deriving DecidableEq, Repr

inductive GameStatus where
  | PLAYING
  | GAME_OVER
  | VICTORY
  | DEFEAT
deriving DecidableEq, Repr

/-- The error/info toasts raised by the modelled commands, keeping the data
interpolated into the source's strings. -/
inductive ToastMsg where
  | rankRequired (level : Int)
  | pathBlocked
  | needMoves (total : Int)
  | blockedBySentinel (id : String)
  | growthDenied
deriving DecidableEq, Repr

/-- Entries of `messageLog`, keeping the data interpolated into the source's
strings ("[who] Sector L1 Acquired" / "[who] Record Lk! +c cr"). -/
inductive LogMsg where
  | sectorAcquired (who : String)
  | recordLevel (who : String) (level : Int) (coins : Int)
deriving DecidableEq, Repr

/-- `PendingConfirmation` data for a coin-assisted move. -/
structure PendingMove where
  path : List HexCoord
  costMoves : Int
  costCoins : Int
deriving DecidableEq, Repr

/-- The simulation-relevant slice of `GameState` (auth/leaderboard/UI-session
fields consumed only by the excluded UI layers are omitted). -/
structure GameState where
  uiState : UIState
  pendingConfirmation : Option PendingMove
  winCondition : Option WinCondition
  grid : Grid
  player : Entity
  bots : List Entity
  gameStatus : GameStatus
  messageLog : List LogMsg
  lastBotActionTime : Int
  isPlayerGrowing : Bool
  growingBotIds : List String
  toast : Option ToastMsg
deriving DecidableEq, Repr

/-- `createInitialHex` (every call site passes `startLevel = 0`). -/
def createInitialHex (q r startLevel : Int) : Hex :=
  { id := getHexKey q r, q := q, r := r, currentLevel := 0, maxLevel := startLevel
    progress := 0, revealed := true }

/-- Ensure a coordinate's six neighbors (and, for the list the callers build,
the coordinate itself) exist in the grid, creating absent tiles at level 0. -/
def ensureHexes (coords : List HexCoord) (g : Grid) : Grid :=
  coords.foldl
    (fun g n =>
      let k := getHexKey n.q n.r
      match lookupKey g k with
      | some _ => g
      | none => writeKey g k (createInitialHex n.q n.r 0))
    g

/-- Result record of one growth step (`processEntityGrowth` returns
`{ ent, growing, finishedStep }` and mutates the captured `newGrid`/`logs`,
which are threaded explicitly here). -/
structure GrowthStep where
  grid : Grid
  logs : List LogMsg
  ent : Entity
  growing : Bool
  finishedStep : Bool
deriving DecidableEq, Repr

/-- `processEntityGrowth`, the closure defined inside `tick`. -/
def processEntityGrowth (grid : Grid) (logs : List LogMsg) (ent : Entity)
    (isGrowing : Bool) : GrowthStep :=
  let hasUpgradeCmd : Bool :=
    match ent.movementQueue with
    | c :: _ => c.upgrade
    | [] => false
  if ¬isGrowing ∨ (ent.movementQueue ≠ [] ∧ ¬hasUpgradeCmd) then
    { grid := grid, logs := logs, ent := ent, growing := false, finishedStep := false }
  else
    let key := getHexKey ent.q ent.r
    match lookupKey grid key with
    | none => { grid := grid, logs := logs, ent := ent, growing := false, finishedStep := false }
    | some hex =>
      if (checkGrowthCondition hex ent).canGrow = false then
        { grid := grid, logs := logs, ent := ent, growing := false, finishedStep := false }
      else
        let targetLevel := hex.currentLevel + 1
        let needed := getSecondsToGrow targetLevel
        if hex.progress + 1 ≥ needed then
          let who := if ent.type = .PLAYER then "YOU" else ent.id
          let rewardCoins := (calculateReward targetLevel).1
          let newMaxLevel := if targetLevel > hex.maxLevel then targetLevel else hex.maxLevel
          let ent1 :=
            if targetLevel > hex.maxLevel then
              if targetLevel = 1 then
                let q1 := ent.recentUpgrades ++ [hex.id]
                let q2 := if q1.length > UPGRADE_LOCK_QUEUE_SIZE then q1.tail else q1
                { ent with playerLevel := max ent.playerLevel targetLevel, recentUpgrades := q2 }
              else
                { ent with playerLevel := max ent.playerLevel targetLevel, recentUpgrades := [] }
            else ent
          let finalCoins :=
            if targetLevel > hex.maxLevel ∧ targetLevel ≠ 1 then targetLevel ^ 2 else rewardCoins
          let logs1 :=
            if targetLevel > hex.maxLevel then
              if targetLevel = 1 then LogMsg.sectorAcquired who :: logs
              else LogMsg.recordLevel who targetLevel (targetLevel ^ 2) :: logs
            else logs
          let ent2 :=
            { ent1 with
              coins := ent1.coins + finalCoins,
              totalCoinsEarned := ent1.totalCoinsEarned + finalCoins,
              moves := ent1.moves + 1 }
          { grid := writeKey grid key
              { hex with currentLevel := targetLevel, maxLevel := newMaxLevel, progress := 0 }
            logs := logs1, ent := ent2
            growing := targetLevel < newMaxLevel, finishedStep := true }
        else
          { grid := writeKey grid key { hex with progress := hex.progress + 1 }
            logs := logs, ent := ent, growing := true, finishedStep := false }

/-- `togglePlayerGrowth`. -/
def togglePlayerGrowth (s : GameState) : GameState :=
  if s.uiState ≠ .GAME ∨ s.player.movementQueue ≠ [] then s
  else if s.isPlayerGrowing = false then
    match lookupKey s.grid (getHexKey s.player.q s.player.r) with
    | some hex =>
      if (checkGrowthCondition hex s.player).canGrow = false then
        { s with toast := some .growthDenied }
      else { s with isPlayerGrowing := !s.isPlayerGrowing }
    | none => { s with isPlayerGrowing := !s.isPlayerGrowing }
  else { s with isPlayerGrowing := !s.isPlayerGrowing }

/-- `rechargeMove`. -/
def rechargeMove (s : GameState) : GameState :=
  if s.uiState ≠ .GAME ∨ s.player.coins < EXCHANGE_RATE_COINS_PER_MOVE then s
  else
    { s with player :=
        { s.player with
          coins := s.player.coins - EXCHANGE_RATE_COINS_PER_MOVE,
          moves := s.player.moves + 1 } }

/-- `cancelPendingAction`. -/
def cancelPendingAction (s : GameState) : GameState := { s with pendingConfirmation := none }

/-- `confirmPendingAction`. -/
def confirmPendingAction (s : GameState) : GameState :=
  match s.pendingConfirmation with
  | none => s
  | some pc =>
    if s.player.moves < pc.costMoves ∨ s.player.coins < pc.costCoins then
      { s with pendingConfirmation := none }
    else
      { s with
        player :=
          { s.player with
            moves := s.player.moves - pc.costMoves,
            coins := s.player.coins - pc.costCoins,
            movementQueue := pc.path },
        pendingConfirmation := none,
        isPlayerGrowing := false }

/-- `movePlayer(tq, tr)`. -/
def movePlayer (s : GameState) (tq tr : Int) : GameState :=
  if s.uiState ≠ .GAME ∨ s.player.movementQueue ≠ [] then s
  else if tq = s.player.q ∧ tr = s.player.r then s
  else
    let targetHex := lookupKey s.grid (getHexKey tq tr)
    let rankBlocked : Bool :=
      match targetHex with
      | some th => th.maxLevel > s.player.playerLevel
      | none => false
    if rankBlocked then
      { s with toast := some (.rankRequired
          (match targetHex with | some th => th.maxLevel | none => 0)) }
    else
      let obstacles := s.bots.map (fun b => (⟨b.q, b.r, false⟩ : HexCoord))
      match findPath ⟨s.player.q, s.player.r, false⟩ ⟨tq, tr, false⟩ s.grid
          s.player.playerLevel obstacles with
      | none => { s with toast := some .pathBlocked }
      | some path =>
        let totalMoveCost := realPathCost s.grid path
        let costMoves := min s.player.moves totalMoveCost
        let deficit := totalMoveCost - costMoves
        let costCoins := deficit * EXCHANGE_RATE_COINS_PER_MOVE
        if s.player.coins < costCoins then { s with toast := some (.needMoves totalMoveCost) }
        else if costCoins > 0 then
          { s with pendingConfirmation := some { path := path, costMoves := costMoves, costCoins := costCoins } }
        else
          { s with
            player :=
              { s.player with
                moves := s.player.moves - costMoves,
                movementQueue := path },
            isPlayerGrowing := false }

/-- `processMovementStep`: drain one entry of the player's queue, aborting on
dynamic collision with a bot. -/
def processMovementStep (s : GameState) : GameState :=
  match s.player.movementQueue with
  | [] => s
  | nextStep :: restQueue =>
    match s.bots.find? (fun b => b.q = nextStep.q && b.r = nextStep.r) with
    | some hitBot =>
      { s with
        player := { s.player with movementQueue := [] },
        toast := some (.blockedBySentinel hitBot.id) }
    | none =>
      let oldKey := getHexKey s.player.q s.player.r
      let g1 :=
        match lookupKey s.grid oldKey with
        | some h => writeKey s.grid oldKey { h with currentLevel := 0, progress := 0 }
        | none => s.grid
      let g2 := ensureHexes (getNeighbors nextStep.q nextStep.r ++ [nextStep]) g1
      { s with
        grid := g2,
        player :=
          { s.player with
            q := nextStep.q,
            r := nextStep.r,
            movementQueue := restQueue } }

-- The tick engine.

/-- JS `Set.add` on the occupancy set: append if absent. -/
def setAdd (l : List HexKey) (k : HexKey) : List HexKey := if k ∈ l then l else l ++ [k]

/-- JS `Set.delete` on the occupancy set. -/
def setDelete (l : List HexKey) (k : HexKey) : List HexKey := l.filter (fun x => x ≠ k)

/-- Accumulator of the sequential bot loop inside `tick`. -/
structure BotLoopAcc where
  grid : Grid
  logs : List LogMsg
  occ : List HexKey
  lastBotActionTime : Int
  newBots : List Entity
  growingBotIds : List String
deriving DecidableEq, Repr

/-- The upgrade-command consumption after a finished growth step
(`if (bResult.finishedStep) { ... }` in `tick`): returns the updated bot,
the `stillGrowing` flag and the loop's `lastBotActionTime`. -/
def botFinishPhase (now lastBotActionTime : Int) (gres : GrowthStep) :
    Entity × Bool × Int :=
  if gres.finishedStep then
    match gres.ent.movementQueue with
    | c :: rest =>
      if c.upgrade then ({ gres.ent with movementQueue := rest }, false, now)
      else (gres.ent, gres.growing, lastBotActionTime)
    | [] => (gres.ent, gres.growing, lastBotActionTime)
  else (gres.ent, gres.growing, lastBotActionTime)

/-- The movement / AI-decision phase of one bot's turn inside `tick`
(the `if (!stillGrowing && ...)` block): returns the updated bot, the final
`stillGrowing` flag and the updated grid. `occ1` is the occupancy set with
this bot's old position removed, `oldKey` that old position. -/
def botMovementPhase (now : Int) (winCondition : Option WinCondition)
    (newPlayer : Entity) (occ1 : List HexKey) (oldKey : HexKey) (grid : Grid)
    (b2 : Entity) (stillGrowing1 : Bool) (lastT1 : Int) : Entity × Bool × Grid :=
  if ¬stillGrowing1 ∧ now - lastT1 > BOT_ACTION_INTERVAL_MS then
    match b2.movementQueue with
    | nextStep :: restQueue =>
      if nextStep.upgrade then
        match lookupKey grid (getHexKey b2.q b2.r) with
        | some bHex =>
          if (checkGrowthCondition bHex b2).canGrow then (b2, true, grid)
          else ({ b2 with movementQueue := restQueue }, stillGrowing1, grid)
        | none => ({ b2 with movementQueue := restQueue }, stillGrowing1, grid)
      else
        let targetKey := getHexKey nextStep.q nextStep.r
        if targetKey ∈ occ1 then ({ b2 with movementQueue := [] }, stillGrowing1, grid)
        else
          let cost := stepCostOf grid targetKey
          if b2.moves ≥ cost then
            let b3 := { b2 with moves := b2.moves - cost, movementQueue := restQueue }
            let g1 :=
              match lookupKey grid oldKey with
              | some h => writeKey grid oldKey { h with currentLevel := 0, progress := 0 }
              | none => grid
            let b4 := { b3 with q := nextStep.q, r := nextStep.r }
            let g2 := ensureHexes (getNeighbors b4.q b4.r ++ [⟨b4.q, b4.r, false⟩]) g1
            (b4, stillGrowing1, g2)
          else
            let coinCost := (cost - b2.moves) * EXCHANGE_RATE_COINS_PER_MOVE
            if b2.coins ≥ coinCost then
              let b3 :=
                { b2 with
                  moves := 0,
                  coins := b2.coins - coinCost,
                  movementQueue := restQueue }
              let g1 :=
                match lookupKey grid oldKey with
                | some h => writeKey grid oldKey { h with currentLevel := 0, progress := 0 }
                | none => grid
              let b4 := { b3 with q := nextStep.q, r := nextStep.r }
              let g2 := ensureHexes (getNeighbors b4.q b4.r ++ [⟨b4.q, b4.r, false⟩]) g1
              (b4, stillGrowing1, g2)
            else ({ b2 with movementQueue := [] }, stillGrowing1, grid)
    | [] =>
      let obstacles := occ1.map getCoordinatesFromKey
      match calculateBotMove b2 grid newPlayer winCondition obstacles with
      | some path =>
        if path ≠ [] then ({ b2 with movementQueue := path }, stillGrowing1, grid)
        else if b2.coins ≥ EXCHANGE_RATE_COINS_PER_MOVE then
          ({ b2 with coins := b2.coins - EXCHANGE_RATE_COINS_PER_MOVE, moves := b2.moves + 1 },
           stillGrowing1, grid)
        else (b2, stillGrowing1, grid)
      | none =>
        if b2.coins ≥ EXCHANGE_RATE_COINS_PER_MOVE then
          ({ b2 with coins := b2.coins - EXCHANGE_RATE_COINS_PER_MOVE, moves := b2.moves + 1 },
           stillGrowing1, grid)
        else (b2, stillGrowing1, grid)
  else (b2, stillGrowing1, grid)

/-- One iteration of `tick`'s sequential bot loop, processing bot `b0`. -/
def botTickStep (now : Int) (winCondition : Option WinCondition)
    (growingBotIds0 : List String) (newPlayer : Entity)
    (acc : BotLoopAcc) (b0 : Entity) : BotLoopAcc :=
  let mem1 := b0.memory.map
    (fun m => { m with lastPlayerPos := some ⟨newPlayer.q, newPlayer.r, false⟩ })
  let b1 := { b0 with memory := mem1 }
  let oldKey := getHexKey b1.q b1.r
  let occ1 := setDelete acc.occ oldKey
  let isBotGrowing : Bool := b1.id ∈ growingBotIds0
  let gres := processEntityGrowth acc.grid acc.logs b1 isBotGrowing
  let afterFinish := botFinishPhase now acc.lastBotActionTime gres
  let b2 := afterFinish.1
  let stillGrowing1 := afterFinish.2.1
  let lastT1 := afterFinish.2.2
  let moved := botMovementPhase now winCondition newPlayer occ1 oldKey gres.grid
    b2 stillGrowing1 lastT1
  let bFinal := moved.1
  let stillGrowing2 := moved.2.1
  let gridFinal := moved.2.2
  { grid := gridFinal
    logs := gres.logs
    occ := setAdd occ1 (getHexKey bFinal.q bFinal.r)
    lastBotActionTime := lastT1
    newBots := acc.newBots ++ [bFinal]
    growingBotIds := if stillGrowing2 then acc.growingBotIds ++ [bFinal.id]
                     else acc.growingBotIds }

/-- `tick`: advance the whole world by one discrete step. `now` stands for
the `Date.now()` reading taken at the top of the source function. -/
def tick (s : GameState) (now : Int) : GameState :=
  if s.uiState ≠ .GAME ∨ s.gameStatus ≠ .PLAYING then s
  else
    let pres := processEntityGrowth s.grid s.messageLog s.player s.isPlayerGrowing
    let newPlayer := pres.ent
    let isPlayerGrowing1 := pres.growing
    let occ0 := s.bots.foldl (fun o b => setAdd o (getHexKey b.q b.r))
      (setAdd [] (getHexKey newPlayer.q newPlayer.r))
    let acc0 : BotLoopAcc :=
      { grid := pres.grid, logs := pres.logs, occ := occ0
        lastBotActionTime := s.lastBotActionTime, newBots := [], growingBotIds := [] }
    let acc := s.bots.foldl (botTickStep now s.winCondition s.growingBotIds newPlayer) acc0
    let lastT := if now - acc.lastBotActionTime > BOT_ACTION_INTERVAL_MS then now
                 else acc.lastBotActionTime
    let newStatus :=
      match s.winCondition with
      | none => s.gameStatus
      | some wc =>
        let pWin : Bool :=
          (wc.type = WinType.WEALTH && newPlayer.totalCoinsEarned ≥ wc.target) ||
            (wc.type = WinType.DOMINATION && newPlayer.playerLevel ≥ wc.target)
        let bWin : Bool := acc.newBots.any (fun b =>
          (wc.type = WinType.WEALTH && b.totalCoinsEarned ≥ wc.target) ||
            (wc.type = WinType.DOMINATION && b.playerLevel ≥ wc.target))
        if pWin then GameStatus.VICTORY
        else if bWin then GameStatus.DEFEAT
        else s.gameStatus
    { s with grid := acc.grid, player := newPlayer, bots := acc.newBots
             messageLog := acc.logs.take 50, isPlayerGrowing := isPlayerGrowing1
             growingBotIds := acc.growingBotIds, lastBotActionTime := lastT
             gameStatus := newStatus }

-- Concrete sample data used by the closed witness theorems below.

/-- A tile literal. -/
def mkHex (q r cur maxL prog : Int) : Hex :=
  { id := (q, r), q := q, r := r, currentLevel := cur, maxLevel := maxL
    progress := prog, revealed := true }

/-- An agent literal with empty history. -/
def mkEntity (id : String) (ty : EntityType) (q r lvl coins mv : Int)
    (ru : List HexKey) (mq : List HexCoord) : Entity :=
  { id := id, type := ty, q := q, r := r, playerLevel := lvl, coins := coins
    totalCoinsEarned := 0, moves := mv, recentUpgrades := ru, movementQueue := mq
    memory := none }

/-- A minimal in-game state literal. -/
def mkState (grid : Grid) (player : Entity) (bots : List Entity) : GameState :=
  { uiState := .GAME, pendingConfirmation := none, winCondition := none
    grid := grid, player := player, bots := bots, gameStatus := .PLAYING
    messageLog := [], lastBotActionTime := 0, isPlayerGrowing := false
    growingBotIds := [], toast := none }

-- Predicates the invariant claims quantify over.

/-- The per-tile level invariant `0 <= currentLevel <= maxLevel`. -/
def hexLevelOk (h : Hex) : Prop := 0 ≤ h.currentLevel ∧ h.currentLevel ≤ h.maxLevel

/-- The whole-grid level invariant. -/
def gridInv (g : Grid) : Prop := ∀ kv ∈ g, hexLevelOk kv.2

/-- The occupancy key of an agent. -/
def entityPos (e : Entity) : HexKey := getHexKey e.q e.r

/-- The positions of all agents: the player followed by every bot. -/
def agentPositions (s : GameState) : List HexKey :=
  entityPos s.player :: s.bots.map entityPos

/-- Invariant of `tick`'s sequential bot loop: the occupancy set holds
exactly the player, the already-committed bots and the still-pending bots'
old positions, and all of those are pairwise distinct. -/
def tickLoopInv (playerKey : HexKey) (acc : BotLoopAcc) (pending : List Entity) : Prop :=
  (∀ k, k ∈ acc.occ ↔
    (k = playerKey ∨ k ∈ acc.newBots.map entityPos ∨ k ∈ pending.map entityPos)) ∧
  (playerKey :: (acc.newBots.map entityPos ++ pending.map entityPos)).Nodup

/-- The per-agent cycle-queue bound. -/
def queueLenOk (e : Entity) : Prop := e.recentUpgrades.length ≤ UPGRADE_LOCK_QUEUE_SIZE

instance (h : Hex) : Decidable (hexLevelOk h) := by unfold hexLevelOk; infer_instance

instance (g : Grid) : Decidable (gridInv g) := by unfold gridInv; infer_instance

instance (e : Entity) : Decidable (queueLenOk e) := by unfold queueLenOk; infer_instance

/-- The passability predicate maintained by the Dijkstra search (`keyOk`) and
the search-state invariants used by the path theorems. -/
def keyOk (obstacleKeys : List HexKey) (grid : Grid) (rank : Int) (sk k : HexKey) : Prop :=
  k = sk ∨ (k ∉ obstacleKeys ∧ rankLocked grid rank k = false)

def searchInv (obstacleKeys : List HexKey) (grid : Grid) (rank : Int) (sk : HexKey)
    (st : SearchState) : Prop :=
  (∀ e ∈ st.pq, keyOk obstacleKeys grid rank sk e.key) ∧
  (∀ kv ∈ st.previous, keyOk obstacleKeys grid rank sk kv.1 ∧
    ∀ c : HexCoord, kv.2 = some c → keyOk obstacleKeys grid rank sk (getHexKey c.q c.r))

def neighborKeys (k : HexKey) : List HexKey :=
  (getNeighbors k.1 k.2).map (fun c => getHexKey c.q c.r)

def dijkInv (ek : HexKey) (st : SearchState) : Prop :=
  st.distances ≠ [] ∧
  (∀ e ∈ st.pq, e.key ≠ ek) ∧
  (∀ k ∈ st.distances.map Prod.fst,
    (∃ e ∈ st.pq, e.key = k) ∨
    ∀ n ∈ neighborKeys k, n = ek ∨ n ∈ st.distances.map Prod.fst)

instance (ek : HexKey) (st : SearchState) : Decidable (dijkInv ek st) := by
  unfold dijkInv; infer_instance

/-!
## Theorems

Shared helper lemmas first, then one theorem (with witness or
counterexample) per claim.
-/

theorem lookupKey_writeKey_self {α : Type} (l : List (HexKey × α)) (k : HexKey) (v : α) :
    lookupKey (writeKey l k v) k = some v := by
  induction l with
  | nil => simp [writeKey, lookupKey]
  | cons kv rest ih =>
    by_cases h : kv.1 = k
    · simp [writeKey, h, lookupKey]
    · simp [writeKey, h, lookupKey, ih]

theorem lookupKey_writeKey_ne {α : Type} (l : List (HexKey × α)) (k k' : HexKey) (v : α)
    (h : k' ≠ k) : lookupKey (writeKey l k v) k' = lookupKey l k' := by
  induction l with
  | nil => simp [writeKey, lookupKey, Ne.symm h]
  | cons kv rest ih =>
    by_cases hk : kv.1 = k
    · subst hk
      simp only [writeKey, if_pos]
      simp [lookupKey, Ne.symm h, h]
    · simp only [writeKey, if_neg hk]
      by_cases hk' : kv.1 = k'
      · simp [lookupKey, hk']
      · simp [lookupKey, hk', ih]

theorem mem_writeKey {α : Type} (l : List (HexKey × α)) (k : HexKey) (v : α) :
    ∀ kv ∈ writeKey l k v, kv = (k, v) ∨ kv ∈ l := by
  induction l with
  | nil =>
    intro kv hkv
    simp [writeKey] at hkv
    exact Or.inl hkv
  | cons hd rest ih =>
    intro kv hkv
    simp only [writeKey] at hkv
    by_cases h : hd.1 = k
    · rw [if_pos h] at hkv
      rcases List.mem_cons.1 hkv with h1 | h1
      · exact Or.inl h1
      · exact Or.inr (List.mem_cons_of_mem _ h1)
    · rw [if_neg h] at hkv
      rcases List.mem_cons.1 hkv with h1 | h1
      · exact Or.inr (h1 ▸ List.mem_cons_self _ _)
      · rcases ih kv h1 with h2 | h2
        · exact Or.inl h2
        · exact Or.inr (List.mem_cons_of_mem _ h2)

/-- Unfolding equation for `ensureHexes` on a cons cell. -/
theorem ensureHexes_cons (c : HexCoord) (cs : List HexCoord) (g : Grid) :
    ensureHexes (c :: cs) g =
      ensureHexes cs
        (match lookupKey g (getHexKey c.q c.r) with
         | some _ => g
         | none => writeKey g (getHexKey c.q c.r) (createInitialHex c.q c.r 0)) := rfl

theorem mem_ensureHexes (cs : List HexCoord) (g : Grid) :
    ∀ kv ∈ ensureHexes cs g, kv ∈ g ∨ ∃ n : HexCoord, kv.2 = createInitialHex n.q n.r 0 := by
  induction cs generalizing g with
  | nil => intro kv h; exact Or.inl h
  | cons c rest ih =>
    intro kv hkv
    rw [ensureHexes_cons] at hkv
    rcases ih _ kv hkv with h1 | h1
    · revert h1
      split
      · exact Or.inl
      · intro h1
        rcases mem_writeKey _ _ _ kv h1 with h2 | h2
        · exact Or.inr ⟨c, by rw [h2]⟩
        · exact Or.inl h2
    · exact Or.inr h1

theorem lookupKey_ensureHexes_existing (cs : List HexCoord) (g : Grid) (k : HexKey) (h : Hex)
    (hfound : lookupKey g k = some h) : lookupKey (ensureHexes cs g) k = some h := by
  induction cs generalizing g with
  | nil => exact hfound
  | cons c rest ih =>
    rw [ensureHexes_cons]
    apply ih
    split
    · exact hfound
    next hnone =>
      have hne : k ≠ getHexKey c.q c.r := by
        intro he; rw [he] at hfound; rw [hfound] at hnone; exact Option.noConfusion hnone
      rw [lookupKey_writeKey_ne _ _ _ _ hne]
      exact hfound

/-- Membership is preserved by the stable sort. -/
theorem mem_stableInsert {α : Type} (le : α → α → Bool) (x y : α) (l : List α) :
    y ∈ stableInsert le x l ↔ y = x ∨ y ∈ l := by
  induction l with
  | nil => simp [stableInsert]
  | cons hd rest ih =>
    by_cases h : le x hd <;> simp [stableInsert, h, ih] <;> try tauto

theorem mem_stableSort {α : Type} (le : α → α → Bool) (x : α) (l : List α) :
    x ∈ stableSort le l ↔ x ∈ l := by
  induction l with
  | nil => simp [stableSort]
  | cons hd rest ih =>
    simp only [stableSort, List.foldr_cons] at *
    rw [mem_stableInsert, ih]
    simp

/-- **C1.** `checkGrowthCondition` permits restoring (`targetLevel <= maxLevel`)
and virgin capture (`targetLevel = 1`) unconditionally; a new record with
`targetLevel >= 2` succeeds exactly when the cycle queue is full (length 3,
under the reachable-state bound `length <= 3`) and the rank gate
`playerLevel >= targetLevel - 1` holds; an incomplete queue always fails with
the CYCLE-INCOMPLETE reason regardless of rank; and the level-up that commits
a record with `targetLevel >= 2` in `processEntityGrowth` clears
`recentUpgrades` to empty. -/
theorem C1_growth_gates_and_cycle_reset :
    (∀ hex ent, hex.currentLevel + 1 ≤ hex.maxLevel →
      (checkGrowthCondition hex ent).canGrow = true) ∧
    (∀ hex ent, hex.currentLevel + 1 = 1 →
      (checkGrowthCondition hex ent).canGrow = true) ∧
    (∀ hex ent, ent.recentUpgrades.length ≤ 3 → hex.currentLevel + 1 ≥ 2 →
      hex.currentLevel + 1 > hex.maxLevel →
      ((checkGrowthCondition hex ent).canGrow = true ↔
        (ent.recentUpgrades.length = 3 ∧ ent.playerLevel ≥ hex.currentLevel + 1 - 1))) ∧
    (∀ hex ent, hex.currentLevel + 1 ≥ 2 → hex.currentLevel + 1 > hex.maxLevel →
      ent.recentUpgrades.length < 3 →
      checkGrowthCondition hex ent =
        ⟨false, some (.cycleIncomplete ent.recentUpgrades.length 3)⟩) ∧
    (∀ (grid : Grid) (logs : List LogMsg) (ent : Entity) (hex : Hex),
      lookupKey grid (getHexKey ent.q ent.r) = some hex →
      (ent.movementQueue = [] ∨
        ∃ c rest, ent.movementQueue = c :: rest ∧ c.upgrade = true) →
      (checkGrowthCondition hex ent).canGrow = true →
      hex.progress + 1 ≥ getSecondsToGrow (hex.currentLevel + 1) →
      hex.currentLevel + 1 > hex.maxLevel →
      hex.currentLevel + 1 ≥ 2 →
      (processEntityGrowth grid logs ent true).ent.recentUpgrades = []) := by
  refine ⟨?_, ?_, ?_, ?_, ?_⟩
  · intro hex ent h
    simp only [checkGrowthCondition]
    split_ifs with h1 <;> first | rfl | omega
  · intro hex ent h
    simp only [checkGrowthCondition]
    split_ifs with h1 h2 <;> first | rfl | omega
  · intro hex ent hlen h2 h3
    simp only [checkGrowthCondition, UPGRADE_LOCK_QUEUE_SIZE]
    split_ifs with g1 g2 g3 g4 <;> simp_all <;> omega
  · intro hex ent h2 h3 hlen
    simp only [checkGrowthCondition, UPGRADE_LOCK_QUEUE_SIZE]
    split_ifs with g1 g2 g3 <;> first | rfl | omega
  · intro grid logs ent hex hfound hqueue hcan hdone hrec h2
    rcases hqueue with hq | ⟨c, rest, hq, hu⟩ <;>
      simp only [processEntityGrowth, hq, hfound] <;>
      split_ifs <;>
      simp_all

/-- Witness for C1 at concrete tiles and agents. -/
theorem C1_growth_gates_and_cycle_reset_witness :
    (checkGrowthCondition (mkHex 0 0 0 2 0) (mkEntity "e" .BOT 0 0 0 0 0 [] [])).canGrow
        = true ∧
    (checkGrowthCondition (mkHex 0 0 0 0 0) (mkEntity "e" .BOT 0 0 0 0 0 [] [])).canGrow
        = true ∧
    ((checkGrowthCondition (mkHex 0 0 1 1 0)
        (mkEntity "e" .BOT 0 0 1 0 0 [(9, 9), (8, 8), (7, 7)] [])).canGrow = true ↔
      (([(9, 9), (8, 8), (7, 7)] : List HexKey).length = 3 ∧ (1 : Int) ≥ 1 + 1 - 1)) ∧
    (checkGrowthCondition (mkHex 0 0 1 1 0) (mkEntity "e" .BOT 0 0 9 0 0 [] []) =
      ⟨false, some (.cycleIncomplete 0 3)⟩) ∧
    ((processEntityGrowth [((0, 0), mkHex 0 0 1 1 9)] []
        (mkEntity "e" .BOT 0 0 1 0 0 [(9, 9), (8, 8), (7, 7)] []) true).ent.recentUpgrades
        = []) := by
  refine ⟨?_, ?_, ?_, ?_, ?_⟩
  · exact C1_growth_gates_and_cycle_reset.1 _ _ (by decide)
  · exact C1_growth_gates_and_cycle_reset.2.1 _ _ (by decide)
  · exact C1_growth_gates_and_cycle_reset.2.2.1 _ _ (by decide) (by decide) (by decide)
  · exact C1_growth_gates_and_cycle_reset.2.2.2.1 _ _ (by decide) (by decide) (by decide)
  · exact C1_growth_gates_and_cycle_reset.2.2.2.2 [((0, 0), mkHex 0 0 1 1 9)] []
      (mkEntity "e" .BOT 0 0 1 0 0 [(9, 9), (8, 8), (7, 7)] []) (mkHex 0 0 1 1 9)
      (by decide) (Or.inl (by decide)) (by decide) (by decide) (by decide) (by decide)

/-- **C10.** The commitment check of `calculateBotMove`: whenever the bot's
current tile exists with `progress > 0` and `maxLevel < 99`, the result is
exactly the single in-place upgrade instruction for the bot's own coordinate,
regardless of role, resources, obstacles or growth legality. -/
theorem C10_commitment_check (bot : Entity) (grid : Grid) (player : Entity)
    (wc : Option WinCondition) (obstacles : List HexCoord) (ch : Hex)
    (hfound : lookupKey grid (getHexKey bot.q bot.r) = some ch)
    (hprog : ch.progress > 0) (hml : ch.maxLevel < 99) :
    calculateBotMove bot grid player wc obstacles = some [⟨bot.q, bot.r, true⟩] := by
  simp only [calculateBotMove, hfound]
  simp [hprog, hml]

/-- Witness for C10: a bot mid-upgrade on its tile, with a hostile obstacle
list and a role that would otherwise relocate. -/
theorem C10_commitment_check_witness :
    calculateBotMove (mkEntity "bot-1" .BOT 0 0 0 0 5 [] [])
      [((0, 0), mkHex 0 0 0 1 2)] (mkEntity "p" .PLAYER 5 5 0 0 0 [] []) none
      [⟨1, 0, false⟩] = some [⟨0, 0, true⟩] :=
  C10_commitment_check _ _ _ _ _ (mkHex 0 0 0 1 2) (by decide) (by decide) (by decide)

/-- Any path produced by the validation loop is either the in-place upgrade
pseudo-step or a `findPath` result whose real cost fits the budget. -/
theorem validateCandidates_spec (bot : Entity) (grid : Grid) (obstacles : List HexCoord)
    (tr : Int) (curHex : Option Hex) (cands : List ScoredCandidate) (p : List HexCoord)
    (h : validateCandidates bot grid obstacles tr curHex cands = some p) :
    p = [⟨bot.q, bot.r, true⟩] ∨
      (realPathCost grid p ≤ tr ∧
        ∃ t : HexCoord, findPath ⟨bot.q, bot.r, false⟩ t grid bot.playerLevel obstacles = some p) := by
  induction cands with
  | nil => simp [validateCandidates] at h
  | cons c rest ih =>
    simp only [validateCandidates] at h
    split at h
    · split at h
      · split at h
        · left
          simp only [Option.some.injEq] at h
          exact h.symm
        · exact ih h
      · exact ih h
    · split at h
      next path hfp =>
        split at h
        next hcost =>
          right
          simp only [Option.some.injEq] at h
          subst h
          exact ⟨hcost, c.coord, hfp⟩
        next => exact ih h
      next => exact ih h

/-- **C8.** Whenever `calculateBotMove` returns a movement path (head not
tagged as an in-place upgrade), that path is a validated `findPath` result
and its real total cost - the sum of `maxLevel >= 2 ? maxLevel : 1` over its
steps - is at most the bot's spendable budget `moves + floor(coins / 2)`. -/
theorem C8_bot_path_validated_and_affordable (bot : Entity) (grid : Grid) (player : Entity)
    (wc : Option WinCondition) (obstacles : List HexCoord) (c : HexCoord)
    (rest : List HexCoord)
    (hres : calculateBotMove bot grid player wc obstacles = some (c :: rest))
    (hup : c.upgrade = false) :
    realPathCost grid (c :: rest) ≤ totalResourcesOf bot ∧
      ∃ t : HexCoord,
        findPath ⟨bot.q, bot.r, false⟩ t grid bot.playerLevel obstacles = some (c :: rest) := by
  simp only [calculateBotMove] at hres
  split at hres
  · simp only [Option.some.injEq, List.cons.injEq] at hres
    rw [← hres.1] at hup; simp at hup
  · split at hres
    · simp only [Option.some.injEq, List.cons.injEq] at hres
      rw [← hres.1] at hup; simp at hup
    · split at hres
      · simp only [Option.some.injEq, List.cons.injEq] at hres
        rw [← hres.1] at hup; simp at hup
      · have := validateCandidates_spec bot grid obstacles (totalResourcesOf bot)
          (lookupKey grid (getHexKey bot.q bot.r)) _ _ hres
        rcases this with h | h
        · simp only [List.cons.injEq] at h
          rw [h.1] at hup; simp at hup
        · exact h

/-- Witness for C8: an EXPAND-mode bot that relocates one step to virgin land. -/
theorem C8_bot_path_validated_and_affordable_witness :
    realPathCost [((0, 0), mkHex 0 0 0 1 0), ((1, 0), mkHex 1 0 0 0 0)] [⟨1, 0, false⟩] ≤
        totalResourcesOf (mkEntity "bot-1" .BOT 0 0 0 0 5 [] []) ∧
      ∃ t : HexCoord,
        findPath ⟨0, 0, false⟩ t [((0, 0), mkHex 0 0 0 1 0), ((1, 0), mkHex 1 0 0 0 0)]
          (mkEntity "bot-1" .BOT 0 0 0 0 5 [] []).playerLevel [] = some [⟨1, 0, false⟩] :=
  C8_bot_path_validated_and_affordable
    (mkEntity "bot-1" .BOT 0 0 0 0 5 [] [])
    [((0, 0), mkHex 0 0 0 1 0), ((1, 0), mkHex 1 0 0 0 0)]
    (mkEntity "p" .PLAYER 5 5 0 0 0 [] []) none [] ⟨1, 0, false⟩ [] (by decide) (by decide)

-- Per-phase frame lemmas used by the store invariants.

theorem processEntityGrowth_pos (grid : Grid) (logs : List LogMsg) (ent : Entity) (g : Bool) :
    (processEntityGrowth grid logs ent g).ent.q = ent.q ∧
      (processEntityGrowth grid logs ent g).ent.r = ent.r := by
  unfold processEntityGrowth
  dsimp only
  repeat' split
  all_goals exact ⟨rfl, rfl⟩

theorem processEntityGrowth_queueLen (grid : Grid) (logs : List LogMsg) (ent : Entity)
    (g : Bool) (h : queueLenOk ent) : queueLenOk (processEntityGrowth grid logs ent g).ent := by
  unfold queueLenOk UPGRADE_LOCK_QUEUE_SIZE at *
  simp only [processEntityGrowth]
  split_ifs <;> try exact h
  all_goals split <;> try exact h
  all_goals split_ifs <;> simp_all [List.length_tail, UPGRADE_LOCK_QUEUE_SIZE] <;> omega

theorem botFinishPhase_recentUpgrades (now t : Int) (gres : GrowthStep) :
    (botFinishPhase now t gres).1.recentUpgrades = gres.ent.recentUpgrades := by
  unfold botFinishPhase
  repeat' split
  all_goals rfl

theorem botFinishPhase_pos (now t : Int) (gres : GrowthStep) :
    (botFinishPhase now t gres).1.q = gres.ent.q ∧
      (botFinishPhase now t gres).1.r = gres.ent.r := by
  unfold botFinishPhase
  repeat' split
  all_goals exact ⟨rfl, rfl⟩

theorem botMovementPhase_recentUpgrades (now : Int) (wc : Option WinCondition)
    (np : Entity) (occ1 : List HexKey) (oldKey : HexKey) (grid : Grid)
    (b2 : Entity) (sg : Bool) (lt : Int) :
    (botMovementPhase now wc np occ1 oldKey grid b2 sg lt).1.recentUpgrades
      = b2.recentUpgrades := by
  unfold botMovementPhase
  dsimp only
  repeat' split
  all_goals rfl

/-- A bot's movement phase either leaves it in place or commits the head of
its queue, a non-upgrade step whose key was absent from the occupancy set. -/
theorem botMovementPhase_pos (now : Int) (wc : Option WinCondition)
    (np : Entity) (occ1 : List HexKey) (oldKey : HexKey) (grid : Grid)
    (b2 : Entity) (sg : Bool) (lt : Int) :
    ((botMovementPhase now wc np occ1 oldKey grid b2 sg lt).1.q = b2.q ∧
      (botMovementPhase now wc np occ1 oldKey grid b2 sg lt).1.r = b2.r) ∨
    (∃ step rest', b2.movementQueue = step :: rest' ∧ step.upgrade = false ∧
      (botMovementPhase now wc np occ1 oldKey grid b2 sg lt).1.q = step.q ∧
      (botMovementPhase now wc np occ1 oldKey grid b2 sg lt).1.r = step.r ∧
      getHexKey step.q step.r ∉ occ1) := by
  unfold botMovementPhase
  dsimp only
  repeat' (split <;> try dsimp only)
  all_goals try exact Or.inl ⟨rfl, rfl⟩
  all_goals
    exact Or.inr ⟨_, _, by assumption, by simp_all, rfl, rfl, by assumption⟩

theorem mem_setAdd (l : List HexKey) (k x : HexKey) :
    x ∈ setAdd l k ↔ x ∈ l ∨ x = k := by
  by_cases h : k ∈ l
  · simp only [setAdd, if_pos h]
    constructor
    · exact Or.inl
    · rintro (hx | rfl)
      · exact hx
      · exact h
  · simp [setAdd, if_neg h, List.mem_append]

theorem mem_setDelete (l : List HexKey) (k x : HexKey) :
    x ∈ setDelete l k ↔ x ∈ l ∧ x ≠ k := by
  unfold setDelete
  simp [List.mem_filter]

theorem botTickStep_queueLen (now : Int) (wc : Option WinCondition) (g0 : List String)
    (np : Entity) (acc : BotLoopAcc) (b0 : Entity)
    (hb : queueLenOk b0) (hacc : ∀ e ∈ acc.newBots, queueLenOk e) :
    ∀ e ∈ (botTickStep now wc g0 np acc b0).newBots, queueLenOk e := by
  intro e he
  unfold botTickStep at he
  dsimp only at he
  rcases List.mem_append.1 he with h | h
  · exact hacc e h
  · have he2 : e = _ := List.mem_singleton.1 h
    subst he2
    unfold queueLenOk
    rw [botMovementPhase_recentUpgrades, botFinishPhase_recentUpgrades]
    exact processEntityGrowth_queueLen _ _ _ _ hb

theorem botLoop_queueLen (now : Int) (wc : Option WinCondition) (g0 : List String)
    (np : Entity) (bots : List Entity) (acc : BotLoopAcc)
    (hacc : ∀ e ∈ acc.newBots, queueLenOk e) (hbots : ∀ e ∈ bots, queueLenOk e) :
    ∀ e ∈ (bots.foldl (botTickStep now wc g0 np) acc).newBots, queueLenOk e := by
  induction bots generalizing acc with
  | nil => exact hacc
  | cons b rest ih =>
    simp only [List.foldl_cons]
    exact ih _ (botTickStep_queueLen now wc g0 np acc b (hbots b (by simp))
      hacc) (fun e he => hbots e (by simp [he]))

theorem tick_queueLen (s : GameState) (now : Int)
    (h : ∀ e ∈ s.player :: s.bots, queueLenOk e) :
    ∀ e ∈ (tick s now).player :: (tick s now).bots, queueLenOk e := by
  unfold tick
  split
  · exact h
  · dsimp only
    intro e he
    rcases List.mem_cons.1 he with rfl | hmem
    · exact processEntityGrowth_queueLen _ _ _ _ (h _ (by simp))
    · exact botLoop_queueLen _ _ _ _ _ _ (by simp) (fun e he => h e (by simp [he])) e hmem

/-- **C6.** `recentUpgrades` never grows past the cycle capacity 3 across a
tick, and a level-1 record capture with a full queue drops the oldest entry
while appending the new tile id (FIFO of fixed capacity, length stays 3). -/
theorem C6_recentUpgrades_bounded_and_fifo :
    (∀ (s : GameState) (now : Int), (∀ e ∈ s.player :: s.bots, queueLenOk e) →
      ∀ e ∈ (tick s now).player :: (tick s now).bots, queueLenOk e) ∧
    (∀ (grid : Grid) (logs : List LogMsg) (ent : Entity) (hex : Hex),
      lookupKey grid (getHexKey ent.q ent.r) = some hex →
      (ent.movementQueue = [] ∨
        ∃ c rest, ent.movementQueue = c :: rest ∧ c.upgrade = true) →
      (checkGrowthCondition hex ent).canGrow = true →
      hex.progress + 1 ≥ getSecondsToGrow (hex.currentLevel + 1) →
      hex.currentLevel + 1 = 1 →
      hex.currentLevel + 1 > hex.maxLevel →
      ent.recentUpgrades.length = 3 →
      (processEntityGrowth grid logs ent true).ent.recentUpgrades =
          ent.recentUpgrades.tail ++ [hex.id] ∧
        (processEntityGrowth grid logs ent true).ent.recentUpgrades.length = 3) := by
  constructor
  · exact tick_queueLen
  · intro grid logs ent hex hfound hqueue hcan hdone h1 hrec hlen
    have htail : (ent.recentUpgrades ++ [hex.id]).tail
        = ent.recentUpgrades.tail ++ [hex.id] := by
      cases hru : ent.recentUpgrades with
      | nil => rw [hru] at hlen; simp at hlen
      | cons a t => simp
    rcases hqueue with hq | ⟨c, rest, hq, hu⟩ <;>
      simp only [processEntityGrowth, hq, hfound] <;>
      split_ifs <;>
      simp_all [UPGRADE_LOCK_QUEUE_SIZE] <;>
      omega

/-- Witness for C6: one tick of a two-agent state with full queues, and the
eviction of `(9,9)` when capturing tile `(0,0)` with a full queue. -/
theorem C6_recentUpgrades_bounded_and_fifo_witness :
    (∀ e ∈ (tick (mkState [((0, 0), mkHex 0 0 0 0 0)]
        (mkEntity "player-1" .PLAYER 0 0 1 0 0 [(9, 9), (8, 8), (7, 7)] [])
        [mkEntity "bot-1" .BOT 2 0 0 0 3 [] []]) 2000).player ::
      (tick (mkState [((0, 0), mkHex 0 0 0 0 0)]
        (mkEntity "player-1" .PLAYER 0 0 1 0 0 [(9, 9), (8, 8), (7, 7)] [])
        [mkEntity "bot-1" .BOT 2 0 0 0 3 [] []]) 2000).bots, queueLenOk e) ∧
    ((processEntityGrowth [((0, 0), mkHex 0 0 0 0 4)] []
        (mkEntity "e" .BOT 0 0 1 0 0 [(9, 9), (8, 8), (7, 7)] []) true).ent.recentUpgrades =
        [(8, 8), (7, 7)] ++ [(0, 0)] ∧
      (processEntityGrowth [((0, 0), mkHex 0 0 0 0 4)] []
        (mkEntity "e" .BOT 0 0 1 0 0 [(9, 9), (8, 8), (7, 7)] []) true).ent.recentUpgrades.length
        = 3) := by
  constructor
  · exact C6_recentUpgrades_bounded_and_fifo.1 _ 2000 (by decide)
  · exact C6_recentUpgrades_bounded_and_fifo.2 [((0, 0), mkHex 0 0 0 0 4)] []
      (mkEntity "e" .BOT 0 0 1 0 0 [(9, 9), (8, 8), (7, 7)] []) (mkHex 0 0 0 0 4)
      (by decide) (Or.inl (by decide)) (by decide) (by decide) (by decide) (by decide)
      (by decide)

theorem lookupKey_mem {α : Type} (l : List (HexKey × α)) (k : HexKey) (v : α)
    (h : lookupKey l k = some v) : (k, v) ∈ l := by
  induction l with
  | nil => simp [lookupKey] at h
  | cons kv rest ih =>
    simp only [lookupKey] at h
    split at h
    next heq =>
      simp only [Option.some.injEq] at h
      subst h
      subst heq
      exact List.mem_cons_self _ _
    next => exact List.mem_cons_of_mem _ (ih h)

theorem gridInv_writeKey (g : Grid) (k : HexKey) (h : Hex)
    (hg : gridInv g) (hh : hexLevelOk h) : gridInv (writeKey g k h) := by
  intro kv hkv
  rcases mem_writeKey g k h kv hkv with h1 | h1
  · rw [h1]; exact hh
  · exact hg kv h1

theorem gridInv_ensureHexes (cs : List HexCoord) (g : Grid) (hg : gridInv g) :
    gridInv (ensureHexes cs g) := by
  intro kv hkv
  rcases mem_ensureHexes cs g kv hkv with h1 | ⟨n, h1⟩
  · exact hg kv h1
  · rw [h1]
    exact ⟨le_refl 0, le_refl 0⟩

theorem processEntityGrowth_gridInv (grid : Grid) (logs : List LogMsg) (ent : Entity)
    (g : Bool) (hg : gridInv grid) : gridInv (processEntityGrowth grid logs ent g).grid := by
  unfold processEntityGrowth
  dsimp only
  split
  · exact hg
  · split
    · exact hg
    next hex hfound =>
      have hOk : hexLevelOk hex := hg _ (lookupKey_mem _ _ _ hfound)
      split
      · exact hg
      · split
        · apply gridInv_writeKey _ _ _ hg
          unfold hexLevelOk at *
          dsimp only at *
          split <;> omega
        · apply gridInv_writeKey _ _ _ hg
          unfold hexLevelOk at *
          exact hOk

theorem botMovementPhase_gridInv (now : Int) (wc : Option WinCondition)
    (np : Entity) (occ1 : List HexKey) (oldKey : HexKey) (grid : Grid)
    (b2 : Entity) (sg : Bool) (lt : Int) (hg : gridInv grid) :
    gridInv (botMovementPhase now wc np occ1 oldKey grid b2 sg lt).2.2 := by
  unfold botMovementPhase
  dsimp only
  repeat' (split <;> try dsimp only)
  all_goals try exact hg
  all_goals apply gridInv_ensureHexes
  all_goals try exact hg
  all_goals
    rename_i h heq
  all_goals
    apply gridInv_writeKey _ _ _ hg
  all_goals
    rename_i h heq
  all_goals
    have hOk : hexLevelOk h := hg _ (lookupKey_mem _ _ _ heq)
  all_goals
    unfold hexLevelOk at *
  all_goals
    dsimp only at *
  all_goals omega


theorem botTickStep_gridInv (now : Int) (wc : Option WinCondition) (g0 : List String)
    (np : Entity) (acc : BotLoopAcc) (b0 : Entity) (hg : gridInv acc.grid) :
    gridInv (botTickStep now wc g0 np acc b0).grid := by
  unfold botTickStep
  dsimp only
  exact botMovementPhase_gridInv _ _ _ _ _ _ _ _ _
    (processEntityGrowth_gridInv _ _ _ _ hg)

theorem botLoop_gridInv (now : Int) (wc : Option WinCondition) (g0 : List String)
    (np : Entity) (bots : List Entity) (acc : BotLoopAcc) (hg : gridInv acc.grid) :
    gridInv (bots.foldl (botTickStep now wc g0 np) acc).grid := by
  induction bots generalizing acc with
  | nil => exact hg
  | cons b rest ih =>
    simp only [List.foldl_cons]
    exact ih _ (botTickStep_gridInv now wc g0 np acc b hg)

theorem tick_gridInv (s : GameState) (now : Int) (hg : gridInv s.grid) :
    gridInv (tick s now).grid := by
  unfold tick
  split
  · exact hg
  · dsimp only
    exact botLoop_gridInv _ _ _ _ _ _ (processEntityGrowth_gridInv _ _ _ _ hg)

theorem processMovementStep_gridInv (s : GameState) (hg : gridInv s.grid) :
    gridInv (processMovementStep s).grid := by
  unfold processMovementStep
  dsimp only
  repeat' (split <;> try dsimp only)
  all_goals try exact hg
  all_goals apply gridInv_ensureHexes
  all_goals try exact hg
  all_goals
    rename_i h heq
  all_goals
    apply gridInv_writeKey _ _ _ hg
  all_goals
    rename_i h heq
  all_goals
    have hOk : hexLevelOk h := hg _ (lookupKey_mem _ _ _ heq)
  all_goals
    unfold hexLevelOk at *
  all_goals
    dsimp only at *
  all_goals omega

theorem movePlayer_grid_eq (s : GameState) (tq tr : Int) :
    (movePlayer s tq tr).grid = s.grid := by
  unfold movePlayer
  dsimp only
  repeat' (split <;> try dsimp only)
  all_goals rfl

theorem togglePlayerGrowth_grid_eq (s : GameState) :
    (togglePlayerGrowth s).grid = s.grid := by
  unfold togglePlayerGrowth
  repeat' (split <;> try dsimp only)
  all_goals rfl

theorem processEntityGrowth_levelup (grid : Grid) (logs : List LogMsg) (ent : Entity)
    (hex : Hex)
    (hfound : lookupKey grid (getHexKey ent.q ent.r) = some hex)
    (hqueue : ent.movementQueue = [] ∨
      ∃ c rest, ent.movementQueue = c :: rest ∧ c.upgrade = true)
    (hcan : (checkGrowthCondition hex ent).canGrow = true)
    (hdone : hex.progress + 1 ≥ getSecondsToGrow (hex.currentLevel + 1)) :
    lookupKey (processEntityGrowth grid logs ent true).grid (getHexKey ent.q ent.r) =
        some { hex with
               currentLevel := hex.currentLevel + 1
               maxLevel := if hex.currentLevel + 1 > hex.maxLevel then hex.currentLevel + 1
                           else hex.maxLevel
               progress := 0 } ∧
      hex.currentLevel + 1 ≤ (if hex.currentLevel + 1 > hex.maxLevel then hex.currentLevel + 1
                              else hex.maxLevel) := by
  constructor
  · rcases hqueue with hq | ⟨c, rest, hq, hu⟩ <;>
      simp only [processEntityGrowth, hq, hfound] <;>
      split_ifs <;>
      simp_all [lookupKey_writeKey_self] <;>
      omega
  · split <;> omega

/-- **C5.** Every modelled store operation preserves
`0 <= currentLevel <= maxLevel` for every tile: `tick` and
`processMovementStep` preserve the grid invariant, `movePlayer` and
`togglePlayerGrowth` do not touch the grid at all, a level-up writes
`currentLevel = targetLevel` with `maxLevel` raised to at least
`targetLevel`, and newly created tiles start at `currentLevel 0, maxLevel 0`. -/
theorem C5_level_invariant_preserved :
    (∀ (s : GameState) (now : Int), gridInv s.grid → gridInv (tick s now).grid) ∧
    (∀ s : GameState, gridInv s.grid → gridInv (processMovementStep s).grid) ∧
    (∀ (s : GameState) (tq tr : Int), (movePlayer s tq tr).grid = s.grid) ∧
    (∀ s : GameState, (togglePlayerGrowth s).grid = s.grid) ∧
    (∀ (grid : Grid) (logs : List LogMsg) (ent : Entity) (hex : Hex),
      lookupKey grid (getHexKey ent.q ent.r) = some hex →
      (ent.movementQueue = [] ∨
        ∃ c rest, ent.movementQueue = c :: rest ∧ c.upgrade = true) →
      (checkGrowthCondition hex ent).canGrow = true →
      hex.progress + 1 ≥ getSecondsToGrow (hex.currentLevel + 1) →
      lookupKey (processEntityGrowth grid logs ent true).grid (getHexKey ent.q ent.r) =
          some { hex with
                 currentLevel := hex.currentLevel + 1
                 maxLevel := if hex.currentLevel + 1 > hex.maxLevel then hex.currentLevel + 1
                             else hex.maxLevel
                 progress := 0 } ∧
        hex.currentLevel + 1 ≤ (if hex.currentLevel + 1 > hex.maxLevel then hex.currentLevel + 1
                                else hex.maxLevel)) ∧
    (∀ q r : Int, (createInitialHex q r 0).currentLevel = 0 ∧
      (createInitialHex q r 0).maxLevel = 0) := by
  refine ⟨tick_gridInv, processMovementStep_gridInv, movePlayer_grid_eq,
    togglePlayerGrowth_grid_eq, processEntityGrowth_levelup, ?_⟩
  intro q r
  exact ⟨rfl, rfl⟩

/-- Witness for C5 on a concrete mid-game state and a concrete level-up. -/
theorem C5_level_invariant_preserved_witness :
    gridInv (tick (mkState [((0, 0), mkHex 0 0 1 2 0), ((2, 0), mkHex 2 0 0 1 0)]
        (mkEntity "player-1" .PLAYER 0 0 1 0 0 [] [])
        [mkEntity "bot-1" .BOT 2 0 1 0 3 [] [⟨1, 0, false⟩]]) 2000).grid ∧
    gridInv (processMovementStep (mkState [((0, 0), mkHex 0 0 1 2 0)]
        (mkEntity "player-1" .PLAYER 0 0 1 0 0 [] [⟨1, 0, false⟩]) [])).grid ∧
    (lookupKey (processEntityGrowth [((0, 0), mkHex 0 0 1 2 9)] []
        (mkEntity "e" .BOT 0 0 1 0 0 [] []) true).grid (getHexKey 0 0) =
      some (mkHex 0 0 2 2 0)) := by
  refine ⟨?_, ?_, ?_⟩
  · exact C5_level_invariant_preserved.1 _ 2000 (by decide)
  · exact C5_level_invariant_preserved.2.1 _ (by decide)
  · have := (C5_level_invariant_preserved.2.2.2.2.1 [((0, 0), mkHex 0 0 1 2 9)] []
      (mkEntity "e" .BOT 0 0 1 0 0 [] []) (mkHex 0 0 1 2 9)
      (by decide) (Or.inl (by decide)) (by decide) (by decide)).1
    simpa using this

theorem processMovementStep_departure_reset (s : GameState) (step : HexCoord) (rest : List HexCoord) (h : Hex)
    (hq : s.player.movementQueue = step :: rest)
    (hnocol : ∀ b ∈ s.bots, ¬(b.q = step.q ∧ b.r = step.r))
    (hfound : lookupKey s.grid (getHexKey s.player.q s.player.r) = some h) :
    lookupKey (processMovementStep s).grid (getHexKey s.player.q s.player.r) =
        some { h with currentLevel := 0, progress := 0 } ∧
      (∀ (k : HexKey) (h' : Hex), k ≠ getHexKey s.player.q s.player.r →
        lookupKey s.grid k = some h' →
        lookupKey (processMovementStep s).grid k = some h') := by
  have hfind : s.bots.find? (fun b => b.q = step.q && b.r = step.r) = none := by
    rw [List.find?_eq_none]
    intro b hb
    simp only [Bool.and_eq_true, decide_eq_true_eq]
    exact fun hc => hnocol b hb hc
  unfold processMovementStep
  simp only [hq, hfind, hfound]
  constructor
  · exact lookupKey_ensureHexes_existing _ _ _ _ (lookupKey_writeKey_self _ _ _)
  · intro k h' hk hlk
    apply lookupKey_ensureHexes_existing
    rw [lookupKey_writeKey_ne _ _ _ _ hk]
    exact hlk

theorem botMovementPhase_departure_reset (now : Int) (wc : Option WinCondition) (np : Entity) (occ1 : List HexKey)
    (oldKey : HexKey) (grid : Grid) (b2 : Entity) (lt : Int)
    (step : HexCoord) (rest : List HexCoord) (h : Hex)
    (hgate : now - lt > BOT_ACTION_INTERVAL_MS)
    (hq : b2.movementQueue = step :: rest) (hup : step.upgrade = false)
    (hocc : getHexKey step.q step.r ∉ occ1)
    (hfound : lookupKey grid oldKey = some h)
    (haff : b2.moves ≥ stepCostOf grid (getHexKey step.q step.r) ∨
      b2.coins ≥ (stepCostOf grid (getHexKey step.q step.r) - b2.moves) *
        EXCHANGE_RATE_COINS_PER_MOVE) :
    lookupKey (botMovementPhase now wc np occ1 oldKey grid b2 false lt).2.2 oldKey =
        some { h with currentLevel := 0, progress := 0 } ∧
      (∀ (k : HexKey) (h' : Hex), k ≠ oldKey → lookupKey grid k = some h' →
        lookupKey (botMovementPhase now wc np occ1 oldKey grid b2 false lt).2.2 k
          = some h') := by
  unfold botMovementPhase
  rw [if_pos (by exact ⟨by simp, hgate⟩)]
  simp only [hq, hup, Bool.false_eq_true, if_false, hfound]
  rw [if_neg hocc]
  have finish1 : ∀ g2 : Grid, g2 = ensureHexes (getNeighbors step.q step.r ++
      [⟨step.q, step.r, false⟩]) (writeKey grid oldKey
        { h with currentLevel := 0, progress := 0 }) →
      lookupKey g2 oldKey = some { h with currentLevel := 0, progress := 0 } ∧
      (∀ (k : HexKey) (h' : Hex), k ≠ oldKey → lookupKey grid k = some h' →
        lookupKey g2 k = some h') := by
    rintro g2 rfl
    constructor
    · exact lookupKey_ensureHexes_existing _ _ _ _ (lookupKey_writeKey_self _ _ _)
    · intro k h' hk hlk
      apply lookupKey_ensureHexes_existing
      rw [lookupKey_writeKey_ne _ _ _ _ hk]
      exact hlk
  rcases haff with ha | ha
  · rw [if_pos ha]
    exact finish1 _ rfl
  · by_cases hm : b2.moves ≥ stepCostOf grid (getHexKey step.q step.r)
    · rw [if_pos hm]
      exact finish1 _ rfl
    · rw [if_neg hm]
      rw [if_pos ha]
      exact finish1 _ rfl


/-- **C7.** Committing a movement step resets the departed tile's
`currentLevel` and `progress` to 0 while keeping its `maxLevel` (the reset
record below carries `h.maxLevel` unchanged), and leaves every other
existing tile untouched - both for the player's `processMovementStep` and
for a bot's movement commit inside `tick`. -/
theorem C7_departure_resets_tile_and_frames_rest :
    (∀ (s : GameState) (step : HexCoord) (rest : List HexCoord) (h : Hex),
      s.player.movementQueue = step :: rest →
      (∀ b ∈ s.bots, ¬(b.q = step.q ∧ b.r = step.r)) →
      lookupKey s.grid (getHexKey s.player.q s.player.r) = some h →
      lookupKey (processMovementStep s).grid (getHexKey s.player.q s.player.r) =
          some { h with currentLevel := 0, progress := 0 } ∧
        (∀ (k : HexKey) (h' : Hex), k ≠ getHexKey s.player.q s.player.r →
          lookupKey s.grid k = some h' →
          lookupKey (processMovementStep s).grid k = some h')) ∧
    (∀ (now : Int) (wc : Option WinCondition) (np : Entity) (occ1 : List HexKey)
      (oldKey : HexKey) (grid : Grid) (b2 : Entity) (lt : Int)
      (step : HexCoord) (rest : List HexCoord) (h : Hex),
      now - lt > BOT_ACTION_INTERVAL_MS →
      b2.movementQueue = step :: rest → step.upgrade = false →
      getHexKey step.q step.r ∉ occ1 →
      lookupKey grid oldKey = some h →
      (b2.moves ≥ stepCostOf grid (getHexKey step.q step.r) ∨
        b2.coins ≥ (stepCostOf grid (getHexKey step.q step.r) - b2.moves) *
          EXCHANGE_RATE_COINS_PER_MOVE) →
      lookupKey (botMovementPhase now wc np occ1 oldKey grid b2 false lt).2.2 oldKey =
          some { h with currentLevel := 0, progress := 0 } ∧
        (∀ (k : HexKey) (h' : Hex), k ≠ oldKey → lookupKey grid k = some h' →
          lookupKey (botMovementPhase now wc np occ1 oldKey grid b2 false lt).2.2 k
            = some h')) := by
  constructor
  · exact processMovementStep_departure_reset
  · intro now wc np occ1 oldKey grid b2 lt step rest h hgate hq hup hocc hfound haff
    exact botMovementPhase_departure_reset now wc np occ1 oldKey grid b2 lt step rest h
      hgate hq hup hocc hfound haff

/-- Witness for C7: a player step and a bot step, each departing tile
`(0,0)` at level 2/progress 7, with bystander tile `(5,5)` untouched. -/
theorem C7_departure_resets_tile_and_frames_rest_witness :
    lookupKey (processMovementStep (mkState
        [((0, 0), mkHex 0 0 2 3 7), ((5, 5), mkHex 5 5 1 4 2)]
        (mkEntity "player-1" .PLAYER 0 0 1 0 0 [] [⟨1, 0, false⟩]) [])).grid
        (getHexKey 0 0) = some { mkHex 0 0 2 3 7 with currentLevel := 0, progress := 0 } ∧
    lookupKey (processMovementStep (mkState
        [((0, 0), mkHex 0 0 2 3 7), ((5, 5), mkHex 5 5 1 4 2)]
        (mkEntity "player-1" .PLAYER 0 0 1 0 0 [] [⟨1, 0, false⟩]) [])).grid
        (5, 5) = some (mkHex 5 5 1 4 2) ∧
    lookupKey (botMovementPhase 2000 none (mkEntity "p" .PLAYER 9 9 0 0 0 [] []) []
        (getHexKey 0 0) [((0, 0), mkHex 0 0 2 3 7), ((5, 5), mkHex 5 5 1 4 2)]
        (mkEntity "bot-1" .BOT 0 0 1 0 3 [] [⟨1, 0, false⟩]) false 0).2.2 (getHexKey 0 0)
      = some { mkHex 0 0 2 3 7 with currentLevel := 0, progress := 0 } ∧
    lookupKey (botMovementPhase 2000 none (mkEntity "p" .PLAYER 9 9 0 0 0 [] []) []
        (getHexKey 0 0) [((0, 0), mkHex 0 0 2 3 7), ((5, 5), mkHex 5 5 1 4 2)]
        (mkEntity "bot-1" .BOT 0 0 1 0 3 [] [⟨1, 0, false⟩]) false 0).2.2 (5, 5)
      = some (mkHex 5 5 1 4 2) := by
  refine ⟨?_, ?_, ?_, ?_⟩
  · exact (C7_departure_resets_tile_and_frames_rest.1 _ ⟨1, 0, false⟩ [] (mkHex 0 0 2 3 7)
      (by decide) (by decide) (by decide)).1
  · exact (C7_departure_resets_tile_and_frames_rest.1 _ ⟨1, 0, false⟩ [] (mkHex 0 0 2 3 7)
      (by decide) (by decide) (by decide)).2 (5, 5) (mkHex 5 5 1 4 2) (by decide) (by decide)
  · exact (C7_departure_resets_tile_and_frames_rest.2 2000 none _ [] _ _ _ 0
      ⟨1, 0, false⟩ [] (mkHex 0 0 2 3 7) (by decide) (by decide) (by decide) (by decide)
      (by decide) (Or.inl (by decide))).1
  · exact (C7_departure_resets_tile_and_frames_rest.2 2000 none _ [] _ _ _ 0
      ⟨1, 0, false⟩ [] (mkHex 0 0 2 3 7) (by decide) (by decide) (by decide) (by decide)
      (by decide) (Or.inl (by decide))).2 (5, 5) (mkHex 5 5 1 4 2) (by decide) (by decide)


theorem stepCostOf_pos (grid : Grid) (k : HexKey) : 1 ≤ stepCostOf grid k := by
  unfold stepCostOf
  split
  · split <;> omega
  · omega

theorem botMovementPhase_refuses_insufficient (now : Int) (wc : Option WinCondition) (np : Entity) (occ1 : List HexKey)
    (oldKey : HexKey) (grid : Grid) (b2 : Entity) (lt : Int)
    (step : HexCoord) (rest : List HexCoord)
    (hgate : now - lt > BOT_ACTION_INTERVAL_MS)
    (hq : b2.movementQueue = step :: rest) (hup : step.upgrade = false)
    (hocc : getHexKey step.q step.r ∉ occ1)
    (hm : b2.moves = 0) (hc : b2.coins = 1) :
    botMovementPhase now wc np occ1 oldKey grid b2 false lt
      = ({ b2 with movementQueue := [] }, false, grid) := by
  have hcost := stepCostOf_pos grid (getHexKey step.q step.r)
  unfold botMovementPhase
  rw [if_pos (by exact ⟨by simp, hgate⟩)]
  simp only [hq, hup, Bool.false_eq_true, if_false]
  rw [if_neg hocc]
  rw [if_neg (by omega)]
  rw [if_neg (by simp only [EXCHANGE_RATE_COINS_PER_MOVE]; omega)]

theorem movePlayer_refuses_insufficient (s : GameState) (tq tr : Int) (p : List HexCoord)
    (hui : s.uiState = .GAME) (hqe : s.player.movementQueue = [])
    (hne : ¬(tq = s.player.q ∧ tr = s.player.r))
    (hrank : ∀ th, lookupKey s.grid (getHexKey tq tr) = some th →
      ¬(th.maxLevel > s.player.playerLevel))
    (hp : findPath ⟨s.player.q, s.player.r, false⟩ ⟨tq, tr, false⟩ s.grid
      s.player.playerLevel (s.bots.map (fun b => (⟨b.q, b.r, false⟩ : HexCoord))) = some p)
    (hcost : realPathCost s.grid p = 1)
    (hm : s.player.moves = 0) (hc : s.player.coins = 1) :
    movePlayer s tq tr = { s with toast := some (.needMoves 1) } := by
  unfold movePlayer
  rw [if_neg (by simp [hui, hqe])]
  rw [if_neg hne]
  dsimp only
  rcases hl : lookupKey s.grid (getHexKey tq tr) with _ | th
  · simp only [hl]
    rw [if_neg (by simp)]
    simp only [hp, hcost, hm, hc]
    rw [if_pos (by decide)]
  · simp only [hl]
    rw [if_neg (by simpa using hrank th hl)]
    simp only [hp, hcost, hm, hc]
    rw [if_pos (by decide)]


/-- **C9.** An agent with `moves = 0` and `coins = 1` (exchange rate 2
coins/move) attempting a step is refused with no fractional spend: the bot's
queue is cleared with position, moves, coins and grid untouched, and
`movePlayer` reports the needed total and commits neither move nor cost. -/
theorem C9_no_fractional_spend :
    (∀ (now : Int) (wc : Option WinCondition) (np : Entity) (occ1 : List HexKey)
      (oldKey : HexKey) (grid : Grid) (b2 : Entity) (lt : Int)
      (step : HexCoord) (rest : List HexCoord),
      now - lt > BOT_ACTION_INTERVAL_MS →
      b2.movementQueue = step :: rest → step.upgrade = false →
      getHexKey step.q step.r ∉ occ1 →
      b2.moves = 0 → b2.coins = 1 →
      botMovementPhase now wc np occ1 oldKey grid b2 false lt
        = ({ b2 with movementQueue := [] }, false, grid)) ∧
    (∀ (s : GameState) (tq tr : Int) (p : List HexCoord),
      s.uiState = .GAME → s.player.movementQueue = [] →
      ¬(tq = s.player.q ∧ tr = s.player.r) →
      (∀ th, lookupKey s.grid (getHexKey tq tr) = some th →
        ¬(th.maxLevel > s.player.playerLevel)) →
      findPath ⟨s.player.q, s.player.r, false⟩ ⟨tq, tr, false⟩ s.grid
        s.player.playerLevel (s.bots.map (fun b => (⟨b.q, b.r, false⟩ : HexCoord)))
        = some p →
      realPathCost s.grid p = 1 →
      s.player.moves = 0 → s.player.coins = 1 →
      movePlayer s tq tr = { s with toast := some (.needMoves 1) }) := by
  constructor
  · intro now wc np occ1 oldKey grid b2 lt step rest hgate hq hup hocc hm hc
    exact botMovementPhase_refuses_insufficient now wc np occ1 oldKey grid b2 lt
      step rest hgate hq hup hocc hm hc
  · intro s tq tr p hui hqe hne hrank hp hcost hm hc
    exact movePlayer_refuses_insufficient s tq tr p hui hqe hne hrank hp hcost hm hc

/-- Witness for C9: a bot and the player, each with `moves = 0, coins = 1`,
refused on a cost-1 step to `(1,0)`. -/
theorem C9_no_fractional_spend_witness :
    botMovementPhase 2000 none (mkEntity "p" .PLAYER 9 9 0 0 0 [] []) [] (getHexKey 0 0)
        [] (mkEntity "bot-1" .BOT 0 0 0 1 0 [] [⟨1, 0, false⟩]) false 0
      = ({ mkEntity "bot-1" .BOT 0 0 0 1 0 [] [⟨1, 0, false⟩] with movementQueue := [] },
         false, []) ∧
    movePlayer (mkState [] (mkEntity "player-1" .PLAYER 0 0 0 1 0 [] []) []) 1 0
      = { mkState [] (mkEntity "player-1" .PLAYER 0 0 0 1 0 [] []) [] with
          toast := some (.needMoves 1) } := by
  constructor
  · exact C9_no_fractional_spend.1 2000 none _ [] _ [] _ 0 ⟨1, 0, false⟩ []
      (by decide) (by decide) (by decide) (by decide) (by decide) (by decide)
  · exact C9_no_fractional_spend.2 _ 1 0 [⟨1, 0, false⟩]
      (by decide) (by decide) (by decide)
      (by intro th h; simp [lookupKey] at h)
      (by decide) (by decide) (by decide) (by decide)


theorem botStages_pos (now : Int) (wc : Option WinCondition) (np : Entity)
    (occ1 : List HexKey) (oldKey : HexKey) (grid : Grid) (logs : List LogMsg)
    (b1 : Entity) (g : Bool) (lt0 : Int) :
    entityPos (botMovementPhase now wc np occ1 oldKey
        (processEntityGrowth grid logs b1 g).grid
        (botFinishPhase now lt0 (processEntityGrowth grid logs b1 g)).1
        (botFinishPhase now lt0 (processEntityGrowth grid logs b1 g)).2.1
        (botFinishPhase now lt0 (processEntityGrowth grid logs b1 g)).2.2).1
      = entityPos b1 ∨
    entityPos (botMovementPhase now wc np occ1 oldKey
        (processEntityGrowth grid logs b1 g).grid
        (botFinishPhase now lt0 (processEntityGrowth grid logs b1 g)).1
        (botFinishPhase now lt0 (processEntityGrowth grid logs b1 g)).2.1
        (botFinishPhase now lt0 (processEntityGrowth grid logs b1 g)).2.2).1 ∉ occ1 := by
  have hpe := processEntityGrowth_pos grid logs b1 g
  have hbf := botFinishPhase_pos now lt0 (processEntityGrowth grid logs b1 g)
  rcases botMovementPhase_pos now wc np occ1 oldKey
      (processEntityGrowth grid logs b1 g).grid
      (botFinishPhase now lt0 (processEntityGrowth grid logs b1 g)).1
      (botFinishPhase now lt0 (processEntityGrowth grid logs b1 g)).2.1
      (botFinishPhase now lt0 (processEntityGrowth grid logs b1 g)).2.2 with
    hsame | ⟨step, rest', hq, hup, hq2, hr2, hocc⟩
  · left
    unfold entityPos getHexKey
    rw [hsame.1, hsame.2, hbf.1, hbf.2, hpe.1, hpe.2]
  · right
    unfold entityPos getHexKey
    rw [hq2, hr2]
    exact hocc

set_option maxHeartbeats 1000000 in
theorem botTickStep_shape (now : Int) (wc : Option WinCondition) (g0 : List String)
    (np : Entity) (acc : BotLoopAcc) (b0 : Entity) :
    ∃ bF : Entity,
      (botTickStep now wc g0 np acc b0).newBots = acc.newBots ++ [bF] ∧
      (botTickStep now wc g0 np acc b0).occ
        = setAdd (setDelete acc.occ (entityPos b0)) (entityPos bF) ∧
      (entityPos bF = entityPos b0 ∨
        entityPos bF ∉ setDelete acc.occ (entityPos b0)) := by
  unfold botTickStep
  dsimp only
  refine ⟨_, rfl, rfl, ?_⟩
  exact botStages_pos now wc np _ _ acc.grid acc.logs _ _ acc.lastBotActionTime



set_option maxHeartbeats 1000000 in
theorem tickLoopInv_step (now : Int) (wc : Option WinCondition) (g0 : List String)
    (np : Entity) (pk : HexKey) (acc : BotLoopAcc) (b : Entity) (rest : List Entity)
    (hinv : tickLoopInv pk acc (b :: rest)) :
    tickLoopInv pk (botTickStep now wc g0 np acc b) rest := by
  have hshape := botTickStep_shape now wc g0 np acc b
  revert hshape
  generalize botTickStep now wc g0 np acc b = res
  intro hshape
  obtain ⟨bF, hnb, hocc, hpos⟩ := hshape
  obtain ⟨hmem, hnd⟩ := hinv
  simp only [List.map_cons] at hmem hnd
  have hnd2 : (pk :: entityPos b ::
      (acc.newBots.map entityPos ++ rest.map entityPos)).Nodup :=
    (List.Perm.cons pk List.perm_middle).nodup hnd
  have h1 := List.nodup_cons.1 hnd2
  have h2 := List.nodup_cons.1 h1.2
  have hpk_ne : pk ≠ entityPos b := fun he => h1.1 (he ▸ List.mem_cons_self _ _)
  have hpk_notDR : pk ∉ acc.newBots.map entityPos ++ rest.map entityPos :=
    fun hc => h1.1 (List.mem_cons_of_mem _ hc)
  have hbp_notD : entityPos b ∉ acc.newBots.map entityPos :=
    fun hc => h2.1 (List.mem_append.2 (Or.inl hc))
  have hbp_notR : entityPos b ∉ rest.map entityPos :=
    fun hc => h2.1 (List.mem_append.2 (Or.inr hc))
  have memGoal : ∀ k, k ∈ res.occ ↔
      (k = pk ∨ k ∈ res.newBots.map entityPos ∨
        k ∈ rest.map entityPos) := by
    intro k
    rw [hocc, mem_setAdd, mem_setDelete, hnb, hmem k, List.map_append]
    simp only [List.map_cons, List.map_nil, List.mem_append, List.mem_cons,
      List.not_mem_nil, or_false]
    have hAC : k = pk → k = entityPos b → False := by
      intro hk1 hk2; exact hpk_ne (hk1 ▸ hk2)
    have hBC : k ∈ acc.newBots.map entityPos → k = entityPos b → False := by
      intro hk1 hk2; exact hbp_notD (hk2 ▸ hk1)
    have hEC : k ∈ rest.map entityPos → k = entityPos b → False := by
      intro hk1 hk2; exact hbp_notR (hk2 ▸ hk1)
    rcases hpos with hsame | hfr
    · rw [hsame]
      itauto
    · by_cases hsame : entityPos bF = entityPos b
      · rw [hsame]; itauto
      · have hfresh : entityPos bF ∉ acc.occ := by
          intro hc
          exact hfr ((mem_setDelete _ _ _).2 ⟨hc, hsame⟩)
        have hfresh2 := (not_iff_not.2 (hmem (entityPos bF))).1 hfresh
        push_neg at hfresh2
        obtain ⟨hf1, hf2, hf3⟩ := hfresh2
        simp only [List.mem_cons, not_or] at hf3
        have hNC : k = entityPos bF → k = entityPos b → False := by
          intro hk1 hk2; exact hf3.1 (hk1 ▸ hk2)
        have hNA : k = entityPos bF → k = pk → False := by
          intro hk1 hk2; exact hf1 (hk1 ▸ hk2)
        have hNB : k = entityPos bF → k ∈ acc.newBots.map entityPos → False := by
          intro hk1 hk2; exact hf2 (hk1 ▸ hk2)
        have hNE : k = entityPos bF → k ∈ rest.map entityPos → False := by
          intro hk1 hk2; exact hf3.2 (hk1 ▸ hk2)
        itauto
  refine ⟨memGoal, ?_⟩
  rw [hnb, List.map_append]
  simp only [List.map_cons, List.map_nil]
  have heq : (acc.newBots.map entityPos ++ [entityPos bF]) ++ rest.map entityPos
      = acc.newBots.map entityPos ++ (entityPos bF :: rest.map entityPos) := by
    simp [List.append_assoc]
  rw [heq]
  apply (List.Perm.cons pk List.perm_middle.symm).nodup
  rcases hpos with hsame | hfr
  · rw [hsame]
    exact hnd2
  · by_cases hsame : entityPos bF = entityPos b
    · rw [hsame]; exact hnd2
    · have hfresh : entityPos bF ∉ acc.occ := by
        intro hc
        exact hfr ((mem_setDelete _ _ _).2 ⟨hc, hsame⟩)
      have hfresh2 := (not_iff_not.2 (hmem (entityPos bF))).1 hfresh
      push_neg at hfresh2
      obtain ⟨hf1, hf2, hf3⟩ := hfresh2
      simp only [List.mem_cons, not_or] at hf3
      refine List.nodup_cons.2 ⟨?_, List.nodup_cons.2 ⟨?_, h2.2⟩⟩
      · intro hc
        rcases List.mem_cons.1 hc with hc | hc
        · exact hf1 hc.symm
        · exact hpk_notDR hc
      · intro hc
        rcases List.mem_append.1 hc with hc | hc
        · exact hf2 hc
        · exact hf3.2 hc



theorem tickLoopInv_fold (now : Int) (wc : Option WinCondition) (g0 : List String)
    (np : Entity) (pk : HexKey) (pending : List Entity) (acc : BotLoopAcc)
    (hinv : tickLoopInv pk acc pending) :
    tickLoopInv pk (pending.foldl (botTickStep now wc g0 np) acc) [] := by
  induction pending generalizing acc with
  | nil => exact hinv
  | cons b rest ih =>
    simp only [List.foldl_cons]
    exact ih _ (tickLoopInv_step now wc g0 np pk acc b rest hinv)

theorem mem_foldl_setAdd (bots : List Entity) (init : List HexKey) (k : HexKey) :
    k ∈ bots.foldl (fun o b => setAdd o (getHexKey b.q b.r)) init ↔
      k ∈ init ∨ k ∈ bots.map entityPos := by
  induction bots generalizing init with
  | nil => simp
  | cons b rest ih =>
    simp only [List.foldl_cons, List.map_cons, List.mem_cons]
    rw [ih, mem_setAdd]
    unfold entityPos
    tauto

theorem tick_positions_nodup (s : GameState) (now : Int)
    (h : (agentPositions s).Nodup) : (agentPositions (tick s now)).Nodup := by
  unfold tick
  split
  · exact h
  · dsimp only
    unfold agentPositions at *
    dsimp only
    have hpp := processEntityGrowth_pos s.grid s.messageLog s.player s.isPlayerGrowing
    have hpk : entityPos (processEntityGrowth s.grid s.messageLog s.player
        s.isPlayerGrowing).ent = entityPos s.player := by
      unfold entityPos getHexKey
      rw [hpp.1, hpp.2]
    rw [hpk]
    have hbase : tickLoopInv (entityPos s.player)
        { grid := (processEntityGrowth s.grid s.messageLog s.player s.isPlayerGrowing).grid
          logs := (processEntityGrowth s.grid s.messageLog s.player s.isPlayerGrowing).logs
          occ := s.bots.foldl (fun o b => setAdd o (getHexKey b.q b.r))
            (setAdd [] (getHexKey (processEntityGrowth s.grid s.messageLog s.player
              s.isPlayerGrowing).ent.q (processEntityGrowth s.grid s.messageLog s.player
              s.isPlayerGrowing).ent.r))
          lastBotActionTime := s.lastBotActionTime
          newBots := []
          growingBotIds := [] } s.bots := by
      constructor
      · intro k
        dsimp only
        rw [mem_foldl_setAdd]
        have : getHexKey (processEntityGrowth s.grid s.messageLog s.player
            s.isPlayerGrowing).ent.q (processEntityGrowth s.grid s.messageLog s.player
            s.isPlayerGrowing).ent.r = entityPos s.player := hpk
        rw [this]
        simp only [setAdd, List.not_mem_nil, if_false, List.nil_append,
          List.mem_singleton, List.map_nil, List.mem_cons]
        tauto
      · dsimp only
        simp only [List.map_nil, List.nil_append]
        exact h
    have hfold := tickLoopInv_fold now s.winCondition s.growingBotIds
      (processEntityGrowth s.grid s.messageLog s.player s.isPlayerGrowing).ent
      (entityPos s.player) s.bots _ hbase
    have hnd := hfold.2
    simp only [List.map_nil, List.append_nil] at hnd
    exact hnd


theorem processMovementStep_collision (s : GameState) (step : HexCoord)
    (rest : List HexCoord) (b : Entity)
    (hq : s.player.movementQueue = step :: rest)
    (hb : b ∈ s.bots) (hbq : b.q = step.q) (hbr : b.r = step.r) :
    (processMovementStep s).player.movementQueue = [] ∧
    (processMovementStep s).player.q = s.player.q ∧
    (processMovementStep s).player.r = s.player.r ∧
    (processMovementStep s).grid = s.grid ∧
    (processMovementStep s).bots = s.bots := by
  have hsome : (s.bots.find? (fun e => e.q = step.q && e.r = step.r)).isSome := by
    rw [List.find?_isSome]
    exact ⟨b, hb, by simp [hbq, hbr]⟩
  unfold processMovementStep
  rw [hq]
  rcases hf : s.bots.find? (fun e => e.q = step.q && e.r = step.r) with _ | hit
  · rw [hf] at hsome; simp at hsome
  · simp [hf]


/-- **C2.** Sequential collision-free resolution: if the player and all bots
occupy pairwise distinct coordinates before a tick they do so after it
(each bot is checked against the live occupancy set, committed before the
next bot is processed), and the player's movement step aborts with a cleared
queue, unchanged position, grid and bots when its next coordinate equals any
bot's position. -/
theorem C2_no_two_agents_share_a_tile :
    (∀ (s : GameState) (now : Int), (agentPositions s).Nodup →
      (agentPositions (tick s now)).Nodup) ∧
    (∀ (s : GameState) (step : HexCoord) (rest : List HexCoord) (b : Entity),
      s.player.movementQueue = step :: rest → b ∈ s.bots →
      b.q = step.q → b.r = step.r →
      (processMovementStep s).player.movementQueue = [] ∧
      (processMovementStep s).player.q = s.player.q ∧
      (processMovementStep s).player.r = s.player.r ∧
      (processMovementStep s).grid = s.grid ∧
      (processMovementStep s).bots = s.bots) :=
  ⟨tick_positions_nodup, processMovementStep_collision⟩

/-- Witness for C2: a tick in which two bots move in sequence (the second
onto the tile the first just vacated) stays collision-free, and a player
step into a bot aborts. -/
theorem C2_no_two_agents_share_a_tile_witness :
    (agentPositions (tick (mkState []
        (mkEntity "player-1" .PLAYER 0 0 0 0 0 [] [])
        [mkEntity "bot-1" .BOT 2 0 0 0 3 [] [⟨1, 0, false⟩],
         mkEntity "bot-2" .BOT 3 0 0 0 3 [] [⟨2, 0, false⟩]]) 2000)).Nodup ∧
    ((processMovementStep (mkState []
        (mkEntity "player-1" .PLAYER 0 0 0 0 0 [] [⟨1, 0, false⟩])
        [mkEntity "bot-1" .BOT 1 0 0 0 3 [] []])).player.movementQueue = [] ∧
      (processMovementStep (mkState []
        (mkEntity "player-1" .PLAYER 0 0 0 0 0 [] [⟨1, 0, false⟩])
        [mkEntity "bot-1" .BOT 1 0 0 0 3 [] []])).player.q =
        (mkState [] (mkEntity "player-1" .PLAYER 0 0 0 0 0 [] [⟨1, 0, false⟩])
          [mkEntity "bot-1" .BOT 1 0 0 0 3 [] []]).player.q ∧
      (processMovementStep (mkState []
        (mkEntity "player-1" .PLAYER 0 0 0 0 0 [] [⟨1, 0, false⟩])
        [mkEntity "bot-1" .BOT 1 0 0 0 3 [] []])).player.r =
        (mkState [] (mkEntity "player-1" .PLAYER 0 0 0 0 0 [] [⟨1, 0, false⟩])
          [mkEntity "bot-1" .BOT 1 0 0 0 3 [] []]).player.r ∧
      (processMovementStep (mkState []
        (mkEntity "player-1" .PLAYER 0 0 0 0 0 [] [⟨1, 0, false⟩])
        [mkEntity "bot-1" .BOT 1 0 0 0 3 [] []])).grid =
        (mkState [] (mkEntity "player-1" .PLAYER 0 0 0 0 0 [] [⟨1, 0, false⟩])
          [mkEntity "bot-1" .BOT 1 0 0 0 3 [] []]).grid ∧
      (processMovementStep (mkState []
        (mkEntity "player-1" .PLAYER 0 0 0 0 0 [] [⟨1, 0, false⟩])
        [mkEntity "bot-1" .BOT 1 0 0 0 3 [] []])).bots =
        (mkState [] (mkEntity "player-1" .PLAYER 0 0 0 0 0 [] [⟨1, 0, false⟩])
          [mkEntity "bot-1" .BOT 1 0 0 0 3 [] []]).bots) := by
  constructor
  · exact C2_no_two_agents_share_a_tile.1 _ 2000 (by decide)
  · exact C2_no_two_agents_share_a_tile.2 _ ⟨1, 0, false⟩ []
      (mkEntity "bot-1" .BOT 1 0 0 0 3 [] []) (by decide) (by decide) (by decide) (by decide)

/-- Every coordinate of a reconstructed path is the walk's starting cursor or
is stored as a `previous` value, and never carries the start key. -/
theorem reconstructPath_mem (prev : List (HexKey × Option HexCoord)) (sk : HexKey) :
    ∀ (fuel : Nat) (cur : Option HexCoord) (acc : List HexCoord) (c : HexCoord),
    c ∈ reconstructPath prev sk fuel cur acc →
    c ∈ acc ∨
    (cur = some c ∧ getHexKey c.q c.r ≠ sk) ∨
    (∃ k, (k, some c) ∈ prev ∧ getHexKey c.q c.r ≠ sk) := by
  intro fuel
  induction fuel with
  | zero =>
    intro cur acc c h
    cases cur <;> simp only [reconstructPath] at h <;> exact Or.inl h
  | succ fuel ih =>
    intro cur acc c h
    cases cur with
    | none => exact Or.inl h
    | some c0 =>
      simp only [reconstructPath] at h
      split at h
      · exact Or.inl h
      next hne =>
        rcases ih _ _ c h with hacc | ⟨hj, hnk⟩ | hex
        · rcases List.mem_cons.1 hacc with rfl | hacc
          · exact Or.inr (Or.inl ⟨rfl, hne⟩)
          · exact Or.inl hacc
        · right; right
          rcases hlk : lookupKey prev (getHexKey c0.q c0.r) with _ | oc
          · rw [hlk] at hj; simp [Option.join] at hj
          · rw [hlk] at hj
            have : oc = some c := by
              cases oc <;> simp [Option.join] at hj <;> simp [hj]
            exact ⟨_, lookupKey_mem _ _ _ (this ▸ hlk), hnk⟩
        · exact Or.inr (Or.inr hex)

/-- `relaxNeighbor` only ever records keys that are outside the obstacle set
and not rank-locked (`searchInv` is preserved). -/
theorem relaxNeighbor_inv (grid : Grid) (rank : Int) (obstacleKeys : List HexKey)
    (sk curKey : HexKey) (st : SearchState) (n : HexCoord)
    (hinv : searchInv obstacleKeys grid rank sk st)
    (hcur : keyOk obstacleKeys grid rank sk curKey) :
    searchInv obstacleKeys grid rank sk (relaxNeighbor grid rank obstacleKeys curKey st n) := by
  unfold relaxNeighbor
  dsimp only
  split
  · exact hinv
  · split
    next hlock => exact hinv
    next hobs hlock =>
      have haddInv : ∀ d' : Int, searchInv obstacleKeys grid rank sk
          { distances := writeKey st.distances (getHexKey n.q n.r) d'
            previous := writeKey st.previous (getHexKey n.q n.r)
              (some (getCoordinatesFromKey curKey))
            pq := st.pq ++ [⟨getHexKey n.q n.r, d'⟩] } := by
        intro d'
        constructor
        · intro e he
          rcases List.mem_append.1 he with he | he
          · exact hinv.1 e he
          · have he2 : e = ⟨getHexKey n.q n.r, d'⟩ := List.mem_singleton.1 he
            rw [he2]
            exact Or.inr ⟨hobs, by simpa using hlock⟩
        · intro kv hkv
          rcases mem_writeKey _ _ _ kv hkv with h1 | h1
          · rw [h1]
            refine ⟨Or.inr ⟨hobs, by simpa using hlock⟩, ?_⟩
            intro c hc
            simp only [Option.some.injEq] at hc
            rw [← hc]
            simpa [getCoordinatesFromKey, getHexKey] using hcur
          · exact hinv.2 kv h1
      split
      · exact haddInv _
      · split
        · exact haddInv _
        · exact hinv


/-- `expandNode` preserves `searchInv`: all six relaxations keep the records
clean of obstacles and rank locks. -/
theorem expandNode_inv (grid : Grid) (rank : Int) (obstacleKeys : List HexKey)
    (sk curKey : HexKey) (st : SearchState)
    (hinv : searchInv obstacleKeys grid rank sk st)
    (hcur : keyOk obstacleKeys grid rank sk curKey) :
    searchInv obstacleKeys grid rank sk (expandNode grid rank obstacleKeys curKey st) := by
  unfold expandNode
  generalize getNeighbors curKey.1 curKey.2 = ns
  induction ns generalizing st with
  | nil => exact hinv
  | cons n rest ih =>
    simp only [List.foldl_cons]
    exact ih _ (relaxNeighbor_inv grid rank obstacleKeys sk curKey st n hinv hcur)

/-- When the Dijkstra loop exits with `found p`, every coordinate of `p` is
outside the obstacle set and not rank-locked. -/
theorem findPathLoop_found_passable (grid : Grid) (rank : Int) (obstacleKeys : List HexKey)
    (sk ek : HexKey) (dest : HexCoord) (hek : getHexKey dest.q dest.r = ek) (hne : ek ≠ sk) :
    ∀ (fuel : Nat) (st : SearchState) (p : List HexCoord),
    searchInv obstacleKeys grid rank sk st →
    findPathLoop grid rank obstacleKeys sk ek dest fuel st = .found p →
    ∀ c ∈ p, getHexKey c.q c.r ∉ obstacleKeys ∧
      rankLocked grid rank (getHexKey c.q c.r) = false := by
  intro fuel
  induction fuel with
  | zero =>
    intro st p hinv hrun
    rw [findPathLoop] at hrun
    rcases hpq : st.pq with _ | ⟨e0, pq0⟩ <;> rw [hpq] at hrun <;> simp at hrun
  | succ fuel ih =>
    intro st p hinv hrun
    rw [findPathLoop] at hrun
    rcases hpq : st.pq with _ | ⟨e0, pq0⟩
    · rw [hpq] at hrun; simp at hrun
    · rw [hpq] at hrun
      dsimp only at hrun
      split at hrun
      · simp at hrun
      next e rest hs =>
        have hmemE : e ∈ st.pq := by
          rw [hpq, ← mem_stableSort lePQ, hs]
          exact List.mem_cons_self _ _
        have hOkE := hinv.1 e hmemE
        split at hrun
        next hke =>
          simp only [LoopExit.found.injEq] at hrun
          subst hrun
          intro c hc
          rcases reconstructPath_mem st.previous sk _ _ _ c hc with h | ⟨hj, hnk⟩ | ⟨k, hkmem, hnk⟩
          · simp at h
          · simp only [Option.some.injEq] at hj
            subst hj
            rcases hOkE with h1 | h1
            · rw [hke] at h1; exact absurd h1 hne
            · rw [hek, ← hke]
              exact h1
          · have h2 := (hinv.2 _ hkmem).2 c rfl
            rcases h2 with h1 | h1
            · exact absurd h1 hnk
            · exact h1
        next hke =>
          have hrest : searchInv obstacleKeys grid rank sk { st with pq := rest } := by
            constructor
            · intro x hx
              apply hinv.1
              rw [hpq, ← mem_stableSort lePQ, hs]
              exact List.mem_cons_of_mem _ hx
            · exact hinv.2
          exact ih _ p (expandNode_inv grid rank obstacleKeys sk e.key _ hrest hOkE) hrun

/-- `writeKey` keeps every existing key. -/
theorem writeKey_keys_super {α : Type} (l : List (HexKey × α)) (k k' : HexKey) (v : α)
    (h : k' ∈ l.map Prod.fst) : k' ∈ (writeKey l k v).map Prod.fst := by
  induction l with
  | nil => simp at h
  | cons hd rest ih =>
    simp only [List.map_cons, List.mem_cons] at h
    simp only [writeKey]
    by_cases hk : hd.1 = k
    · rw [if_pos hk]
      rcases h with h | h
      · simp [← hk, h]
      · simp [h]
    · rw [if_neg hk]
      rcases h with h | h
      · simp [h]
      · simp [ih h]

/-- `writeKey` records the written key. -/
theorem writeKey_self_key {α : Type} (l : List (HexKey × α)) (k : HexKey) (v : α) :
    k ∈ (writeKey l k v).map Prod.fst := by
  induction l with
  | nil => simp [writeKey]
  | cons hd rest ih =>
    simp only [writeKey]
    by_cases hk : hd.1 = k
    · rw [if_pos hk]; simp
    · rw [if_neg hk]
      simp only [List.map_cons, List.mem_cons]
      exact Or.inr ih

/-- A key of `writeKey l k v` is `k` or a key of `l`. -/
theorem writeKey_keys_sub {α : Type} (l : List (HexKey × α)) (k k' : HexKey) (v : α)
    (h : k' ∈ (writeKey l k v).map Prod.fst) : k' = k ∨ k' ∈ l.map Prod.fst := by
  rcases List.mem_map.1 h with ⟨kv, hkv, hfst⟩
  rcases mem_writeKey l k v kv hkv with h1 | h1
  · left; rw [← hfst, h1]
  · right; exact List.mem_map.2 ⟨kv, h1, hfst⟩

/-- A successful lookup means the key is present. -/
theorem lookupKey_some_key {α : Type} (l : List (HexKey × α)) (k : HexKey) (v : α)
    (h : lookupKey l k = some v) : k ∈ l.map Prod.fst := by
  rcases lookupKey_mem l k v h with hmem
  exact List.mem_map.2 ⟨(k, v), hmem, rfl⟩

/-- A nonempty finite list of keys has an entry of maximal `q`. -/
theorem exists_max_fst (l : List HexKey) (h : l ≠ []) :
    ∃ k ∈ l, ∀ k' ∈ l, k'.1 ≤ k.1 := by
  induction l with
  | nil => exact absurd rfl h
  | cons a t ih =>
    by_cases ht : t = []
    · subst ht
      refine ⟨a, List.mem_cons_self _ _, ?_⟩
      intro k' hk'
      rcases List.mem_cons.1 hk' with rfl | h2
      · exact le_refl _
      · simp at h2
    · obtain ⟨k, hk, hmax⟩ := ih ht
      by_cases hak : a.1 ≤ k.1
      · refine ⟨k, List.mem_cons_of_mem _ hk, ?_⟩
        intro k' hk'
        rcases List.mem_cons.1 hk' with rfl | h2
        · exact hak
        · exact hmax k' h2
      · push_neg at hak
        refine ⟨a, List.mem_cons_self _ _, ?_⟩
        intro k' hk'
        rcases List.mem_cons.1 hk' with rfl | h2
        · exact le_refl _
        · exact le_of_lt (lt_of_le_of_lt (hmax k' h2) hak)

/-- No nonempty finite set of hex keys is closed under taking neighbors with a
single allowed escape key: the maximal-`q` element has two distinct neighbors
of larger `q`, and at most one of them can be the escape key. -/
theorem no_closed_finite (ek : HexKey) (D : List HexKey) (hne : D ≠ [])
    (hcl : ∀ k ∈ D, ∀ n ∈ neighborKeys k, n = ek ∨ n ∈ D) : False := by
  obtain ⟨k, hk, hmax⟩ := exists_max_fst D hne
  have h1 := hcl k hk (k.1 + 1, k.2) (by simp [neighborKeys, getNeighbors, getHexKey])
  have h2 := hcl k hk (k.1 + 1, k.2 - 1) (by simp [neighborKeys, getNeighbors, getHexKey])
  rcases h1 with h1 | h1
  · rcases h2 with h2 | h2
    · have h3 := h1.trans h2.symm
      simp only [Prod.mk.injEq] at h3
      omega
    · have h4 := hmax _ h2
      simp only at h4
      omega
  · have h4 := hmax _ h1
    simp only at h4
    omega

/-- `relaxNeighbor` never removes a distance record. -/
theorem relax_keys_mono (grid : Grid) (rank : Int) (obk : List HexKey) (ck : HexKey)
    (st : SearchState) (n : HexCoord) (k : HexKey)
    (h : k ∈ st.distances.map Prod.fst) :
    k ∈ (relaxNeighbor grid rank obk ck st n).distances.map Prod.fst := by
  unfold relaxNeighbor
  dsimp only
  split
  · exact h
  · split
    · exact h
    · split
      · exact writeKey_keys_super _ _ _ _ h
      · split
        · exact writeKey_keys_super _ _ _ _ h
        · exact h

/-- `relaxNeighbor` only appends to the queue. -/
theorem relax_pq_sub (grid : Grid) (rank : Int) (obk : List HexKey) (ck : HexKey)
    (st : SearchState) (n : HexCoord) (e : PQEntry) (h : e ∈ st.pq) :
    e ∈ (relaxNeighbor grid rank obk ck st n).pq := by
  unfold relaxNeighbor
  dsimp only
  split
  · exact h
  · split
    · exact h
    · split
      · exact List.mem_append.2 (Or.inl h)
      · split
        · exact List.mem_append.2 (Or.inl h)
        · exact h

/-- Any queue entry after `relaxNeighbor` is an old entry or a fresh one whose
key is not rank-locked and has a distance record. -/
theorem relax_pq_char (grid : Grid) (rank : Int) (obk : List HexKey) (ck : HexKey)
    (st : SearchState) (n : HexCoord) :
    ∀ e ∈ (relaxNeighbor grid rank obk ck st n).pq,
    e ∈ st.pq ∨
      (rankLocked grid rank e.key = false ∧
       e.key ∈ (relaxNeighbor grid rank obk ck st n).distances.map Prod.fst) := by
  unfold relaxNeighbor
  dsimp only
  split
  · exact fun e he => Or.inl he
  · split
    · exact fun e he => Or.inl he
    next hobs hlock =>
      split
      · intro e he
        rcases List.mem_append.1 he with he | he
        · exact Or.inl he
        · right
          have he2 := List.mem_singleton.1 he
          subst he2
          exact ⟨by simpa using hlock, writeKey_self_key _ _ _⟩
      · split
        · intro e he
          rcases List.mem_append.1 he with he | he
          · exact Or.inl he
          · right
            have he2 := List.mem_singleton.1 he
            subst he2
            exact ⟨by simpa using hlock, writeKey_self_key _ _ _⟩
        · exact fun e he => Or.inl he

/-- With no obstacles, `relaxNeighbor` leaves the neighbor rank-locked or with
a distance record. -/
theorem relax_covers (grid : Grid) (rank : Int) (ck : HexKey)
    (st : SearchState) (n : HexCoord) :
    rankLocked grid rank (getHexKey n.q n.r) = true ∨
      getHexKey n.q n.r ∈ (relaxNeighbor grid rank [] ck st n).distances.map Prod.fst := by
  unfold relaxNeighbor
  dsimp only
  split
  next hobs => simp at hobs
  · split
    next hlock => exact Or.inl (by simpa using hlock)
    next hobs hlock =>
      right
      split
      · exact writeKey_self_key _ _ _
      next d hd =>
        split
        · exact writeKey_self_key _ _ _
        · exact lookupKey_some_key _ _ _ hd

/-- Folding `relaxNeighbor` over a neighbor list keeps every distance key. -/
theorem foldl_relax_keys_mono (grid : Grid) (rank : Int) (obk : List HexKey) (ck : HexKey) :
    ∀ (ns : List HexCoord) (st : SearchState) (k : HexKey),
    k ∈ st.distances.map Prod.fst →
    k ∈ (ns.foldl (relaxNeighbor grid rank obk ck) st).distances.map Prod.fst := by
  intro ns
  induction ns with
  | nil => exact fun st k h => h
  | cons n rest ih =>
    intro st k h
    simp only [List.foldl_cons]
    exact ih _ k (relax_keys_mono grid rank obk ck st n k h)

/-- Folding `relaxNeighbor` over a neighbor list keeps every queue entry. -/
theorem foldl_relax_pq_sub (grid : Grid) (rank : Int) (obk : List HexKey) (ck : HexKey) :
    ∀ (ns : List HexCoord) (st : SearchState) (e : PQEntry),
    e ∈ st.pq → e ∈ (ns.foldl (relaxNeighbor grid rank obk ck) st).pq := by
  intro ns
  induction ns with
  | nil => exact fun st e h => h
  | cons n rest ih =>
    intro st e h
    simp only [List.foldl_cons]
    exact ih _ e (relax_pq_sub grid rank obk ck st n e h)

/-- Queue entries after a full expansion are old or fresh-and-unlocked with a
distance record. -/
theorem foldl_relax_pq_char (grid : Grid) (rank : Int) (obk : List HexKey) (ck : HexKey) :
    ∀ (ns : List HexCoord) (st : SearchState),
    ∀ e ∈ (ns.foldl (relaxNeighbor grid rank obk ck) st).pq,
    e ∈ st.pq ∨
      (rankLocked grid rank e.key = false ∧
       e.key ∈ (ns.foldl (relaxNeighbor grid rank obk ck) st).distances.map Prod.fst) := by
  intro ns
  induction ns with
  | nil => exact fun st e he => Or.inl he
  | cons n rest ih =>
    intro st e he
    simp only [List.foldl_cons] at he ⊢
    rcases ih _ e he with h1 | h1
    · rcases relax_pq_char grid rank obk ck st n e h1 with h2 | h2
      · exact Or.inl h2
      · exact Or.inr ⟨h2.1, foldl_relax_keys_mono grid rank obk ck rest _ _ h2.2⟩
    · exact Or.inr h1

/-- After expanding a node with no obstacles, each of its neighbors is
rank-locked or carries a distance record. -/
theorem foldl_relax_covers (grid : Grid) (rank : Int) (ck : HexKey) :
    ∀ (ns : List HexCoord) (st : SearchState),
    ∀ n ∈ ns,
    rankLocked grid rank (getHexKey n.q n.r) = true ∨
      getHexKey n.q n.r ∈ (ns.foldl (relaxNeighbor grid rank [] ck) st).distances.map Prod.fst := by
  intro ns
  induction ns with
  | nil => intro st n h; simp at h
  | cons m rest ih =>
    intro st n h
    simp only [List.foldl_cons]
    rcases List.mem_cons.1 h with rfl | h
    · rcases relax_covers grid rank ck st n with h1 | h1
      · exact Or.inl h1
      · exact Or.inr (foldl_relax_keys_mono grid rank [] ck rest _ _ h1)
    · exact ih _ n h

/-- A distance key after `relaxNeighbor` is an old key or has a matching fresh
queue entry. -/
theorem relax_keys_char (grid : Grid) (rank : Int) (obk : List HexKey) (ck : HexKey)
    (st : SearchState) (n : HexCoord) :
    ∀ k ∈ (relaxNeighbor grid rank obk ck st n).distances.map Prod.fst,
    k ∈ st.distances.map Prod.fst ∨
      ∃ e ∈ (relaxNeighbor grid rank obk ck st n).pq, e.key = k := by
  unfold relaxNeighbor
  dsimp only
  split
  · exact fun k hk => Or.inl hk
  · split
    · exact fun k hk => Or.inl hk
    · split
      · intro k hk
        rcases writeKey_keys_sub _ _ _ _ hk with h0 | h1
        · right
          exact ⟨⟨getHexKey n.q n.r,
            (lookupKey st.distances ck).getD 0 + stepCostOf grid (getHexKey n.q n.r)⟩,
            List.mem_append.2 (Or.inr (List.mem_singleton.2 rfl)), h0.symm⟩
        · exact Or.inl h1
      · split
        · intro k hk
          rcases writeKey_keys_sub _ _ _ _ hk with h0 | h1
          · right
            exact ⟨⟨getHexKey n.q n.r,
              (lookupKey st.distances ck).getD 0 + stepCostOf grid (getHexKey n.q n.r)⟩,
              List.mem_append.2 (Or.inr (List.mem_singleton.2 rfl)), h0.symm⟩
          · exact Or.inl h1
        · exact fun k hk => Or.inl hk

/-- A distance key after a full expansion is an old key or has a matching
queue entry. -/
theorem foldl_relax_keys_char (grid : Grid) (rank : Int) (obk : List HexKey) (ck : HexKey) :
    ∀ (ns : List HexCoord) (st : SearchState),
    ∀ k ∈ (ns.foldl (relaxNeighbor grid rank obk ck) st).distances.map Prod.fst,
    k ∈ st.distances.map Prod.fst ∨
      ∃ e ∈ (ns.foldl (relaxNeighbor grid rank obk ck) st).pq, e.key = k := by
  intro ns
  induction ns with
  | nil => exact fun st k hk => Or.inl hk
  | cons n rest ih =>
    intro st k hk
    simp only [List.foldl_cons] at hk ⊢
    rcases ih _ k hk with h1 | h1
    · rcases relax_keys_char grid rank obk ck st n k h1 with h2 | h2
      · exact Or.inl h2
      · obtain ⟨e, he, hek⟩ := h2
        exact Or.inr ⟨e, foldl_relax_pq_sub grid rank obk ck rest _ e he, hek⟩
    · exact Or.inr h1

/-- Under `dijkInv` the queue can never be empty: an empty queue would make
the finite distance-key set neighbor-closed away from `ek`. -/
theorem dijkInv_pq_nil_false (ek : HexKey) (st : SearchState)
    (hinv : dijkInv ek st) (hpq : st.pq = []) : False := by
  apply no_closed_finite ek (st.distances.map Prod.fst)
  · intro h
    exact hinv.1 (List.map_eq_nil.1 h)
  · intro k hk
    rcases hinv.2.2 k hk with ⟨e, he, _⟩ | hcl
    · rw [hpq] at he; simp at he
    · exact hcl

/-- Popping the head of the sorted queue and expanding it preserves `dijkInv`
when the only rank-locked key is the destination. -/
theorem dijkInv_expand (grid : Grid) (rank : Int) (ek : HexKey) (st : SearchState)
    (e : PQEntry) (rest : List PQEntry)
    (hlock : ∀ k, rankLocked grid rank k = true → k = ek)
    (heklock : rankLocked grid rank ek = true)
    (hinv : dijkInv ek st)
    (hs : stableSort lePQ st.pq = e :: rest) :
    dijkInv ek (expandNode grid rank [] e.key { st with pq := rest }) := by
  have hrest_sub : ∀ x ∈ rest, x ∈ st.pq := by
    intro x hx
    rw [← mem_stableSort lePQ, hs]
    exact List.mem_cons_of_mem _ hx
  unfold expandNode
  refine ⟨?_, ?_, ?_⟩
  · obtain ⟨kv, hkv⟩ := List.exists_mem_of_ne_nil _ hinv.1
    have hk : kv.1 ∈ st.distances.map Prod.fst := List.mem_map.2 ⟨kv, hkv, rfl⟩
    have hk2 := foldl_relax_keys_mono grid rank [] e.key
      (getNeighbors e.key.1 e.key.2) { st with pq := rest } kv.1 hk
    intro hnil
    rw [hnil] at hk2
    simp at hk2
  · intro x hx
    rcases foldl_relax_pq_char grid rank [] e.key _ _ x hx with h1 | h1
    · exact hinv.2.1 x (hrest_sub x h1)
    · intro hxe
      rw [hxe, heklock] at h1
      exact absurd h1.1 (by simp)
  · intro k hk
    rcases foldl_relax_keys_char grid rank [] e.key _ _ k hk with h1 | h1
    · rcases hinv.2.2 k h1 with ⟨x, hxmem, hxk⟩ | hcl
      · have hx2 : x ∈ stableSort lePQ st.pq := (mem_stableSort lePQ x st.pq).2 hxmem
        rw [hs] at hx2
        rcases List.mem_cons.1 hx2 with rfl | hx2
        · right
          intro n hn
          rcases List.mem_map.1 hn with ⟨c, hc, hck⟩
          rw [← hxk] at hc
          rcases foldl_relax_covers grid rank x.key
            (getNeighbors x.key.1 x.key.2) { st with pq := rest } c hc with h2 | h2
          · left; rw [← hck]; exact hlock _ h2
          · right; rw [← hck]
            exact h2
        · exact Or.inl ⟨x, foldl_relax_pq_sub grid rank [] e.key _ _ x hx2, hxk⟩
      · right
        intro n hn
        rcases hcl n hn with h2 | h2
        · exact Or.inl h2
        · exact Or.inr (foldl_relax_keys_mono grid rank [] e.key _ _ n h2)
    · exact Or.inl h1

/-- When the only rank-locked key is the destination and there are no
obstacles, the Dijkstra loop always exhausts its entire iteration budget: the
queue can never empty over the infinite grid, and the destination is never
popped, so every run ends `.capped`. -/
theorem findPathLoop_capped (grid : Grid) (rank : Int) (sk ek : HexKey) (dest : HexCoord)
    (hlock : ∀ k, rankLocked grid rank k = true → k = ek)
    (heklock : rankLocked grid rank ek = true) :
    ∀ (fuel : Nat) (st : SearchState), dijkInv ek st →
    findPathLoop grid rank [] sk ek dest fuel st = .capped := by
  intro fuel
  induction fuel with
  | zero =>
    intro st hinv
    rw [findPathLoop]
    rcases hpq : st.pq with _ | ⟨e0, pq0⟩
    · exact absurd (dijkInv_pq_nil_false ek st hinv hpq) (by simp)
    · rfl
  | succ fuel ih =>
    intro st hinv
    rw [findPathLoop]
    rcases hpq : st.pq with _ | ⟨e0, pq0⟩
    · exact absurd (dijkInv_pq_nil_false ek st hinv hpq) (by simp)
    · dsimp only
      split
      next hs =>
        exfalso
        have h0 : e0 ∈ stableSort lePQ (e0 :: pq0) :=
          (mem_stableSort lePQ e0 (e0 :: pq0)).2 (List.mem_cons_self _ _)
        rw [hs] at h0
        simp at h0
      next e rest hs =>
        have hmemE : e ∈ st.pq := by
          rw [hpq, ← mem_stableSort lePQ, hs]
          exact List.mem_cons_self _ _
        rw [if_neg (hinv.2.1 e hmemE)]
        apply ih
        have hs2 : stableSort lePQ st.pq = e :: rest := by rw [hpq]; exact hs
        exact dijkInv_expand grid rank ek st e rest hlock heklock hinv hs2
/-- Over a one-tile grid only that tile's key can be rank-locked. -/
theorem rankLocked_singleton (k0 : HexKey) (h : Hex) (rank : Int) (k : HexKey)
    (hk : rankLocked [(k0, h)] rank k = true) : k = k0 := by
  by_cases he : k0 = k
  · exact he.symm
  · exfalso
    unfold rankLocked lookupKey at hk
    rw [if_neg he] at hk
    simp [lookupKey] at hk

/-- The initial search state satisfies `dijkInv` whenever the search does not
start on the destination. -/
theorem initial_dijkInv (sk ek : HexKey) (hne : sk ≠ ek) :
    dijkInv ek (initialSearchState sk) := by
  refine ⟨by simp [initialSearchState], ?_, ?_⟩
  · intro e he
    simp only [initialSearchState, List.mem_singleton] at he
    rw [he]
    exact hne
  · intro k hk
    simp only [initialSearchState, List.map_cons, List.map_nil, List.mem_singleton] at hk
    left
    exact ⟨⟨sk, 0⟩, by simp [initialSearchState], hk ▸ rfl⟩

/-- Counterexample to C4: the destination `(1,0)` is adjacent to the start
`(0,0)` and is not an obstacle, yet `findPath` returns `none`, because the
destination tile's rank lock (maxLevel 5 > rank 0) keeps it out of the queue,
the queue never empties over the open plane, the run hits `MAX_ITERATIONS`
(`.capped`), and the capped branch returns `null` without consulting the
adjacent-destination fallback (which only runs on `.exhausted`). -/
theorem C4_counterexample_capped :
    cubeDistance ⟨0, 0, false⟩ ⟨1, 0, false⟩ = 1 ∧
    getHexKey (1 : Int) 0 ∉ ([] : List HexCoord).map (fun o => getHexKey o.q o.r) ∧
    findPath ⟨0, 0, false⟩ ⟨1, 0, false⟩ [((1, 0), mkHex 1 0 0 5 0)] 0 [] = none ∧
    findPathRun ⟨0, 0, false⟩ ⟨1, 0, false⟩ [((1, 0), mkHex 1 0 0 5 0)] 0 [] = .capped := by
  have hlock : ∀ k, rankLocked [((1, 0), mkHex 1 0 0 5 0)] 0 k = true → k = ((1 : Int), (0 : Int)) :=
    fun k hk => rankLocked_singleton _ _ _ _ hk
  have hcap : findPathRun ⟨0, 0, false⟩ ⟨1, 0, false⟩ [((1, 0), mkHex 1 0 0 5 0)] 0 [] = .capped := by
    unfold findPathRun
    exact findPathLoop_capped _ _ _ _ _ hlock (by decide) MAX_ITERATIONS _
      (initial_dijkInv _ _ (by decide))
  refine ⟨by decide, by decide, ?_, hcap⟩
  rw [findPath]
  dsimp only
  rw [if_neg (by decide), if_neg (by decide), hcap]

/-- Hexes at cube distance 1 have different keys. -/
theorem cubeDistance_ne_keys (a b : HexCoord) (h : cubeDistance a b = 1) :
    getHexKey a.q a.r ≠ getHexKey b.q b.r := by
  intro he
  simp only [getHexKey, Prod.mk.injEq] at he
  unfold cubeDistance at h
  rw [he.1, he.2] at h
  simp at h

/-- The initial search state satisfies `searchInv`. -/
theorem initial_searchInv (obk : List HexKey) (grid : Grid) (rank : Int) (sk : HexKey) :
    searchInv obk grid rank sk (initialSearchState sk) := by
  constructor
  · intro e he
    simp only [initialSearchState, List.mem_singleton] at he
    rw [he]
    exact Or.inl rfl
  · intro kv hkv
    simp only [initialSearchState, List.mem_singleton] at hkv
    rw [hkv]
    exact ⟨Or.inl rfl, by intro c hc; simp at hc⟩

/-- **C3** (amended). Any path returned by `findPath` avoids the supplied
obstacle set entirely (so a destination inside the obstacle set yields no
path), and avoids rank-locked tiles except in exactly one case: the
adjacent-destination fallback, reached only when the search queue exhausts,
may return the single-step path `[dest]` whose destination tile is
rank-locked, because the fallback checks obstacles but not the rank lock. -/
theorem C3_paths_avoid_obstacles_and_locks (start dest : HexCoord) (grid : Grid)
    (rank : Int) (obstacles : List HexCoord) (p : List HexCoord)
    (h : findPath start dest grid rank obstacles = some p) :
    getHexKey dest.q dest.r ∉ obstacles.map (fun o => getHexKey o.q o.r) ∧
    (∀ c ∈ p, getHexKey c.q c.r ∉ obstacles.map (fun o => getHexKey o.q o.r)) ∧
    (∀ c ∈ p, rankLocked grid rank (getHexKey c.q c.r) = true →
      p = [dest] ∧ cubeDistance start dest = 1 ∧
      findPathRun start dest grid rank obstacles = .exhausted) := by
  rw [findPath] at h
  dsimp only at h
  split at h
  · simp at h
  next hne0 =>
    split at h
    next hobs => simp at h
    next hobs =>
      refine ⟨hobs, ?_⟩
      split at h
      next p0 hrun =>
        simp only [Option.some.injEq] at h
        subst h
        have hrun2 : findPathLoop grid rank (obstacles.map (fun o => getHexKey o.q o.r))
            (getHexKey start.q start.r) (getHexKey dest.q dest.r) dest MAX_ITERATIONS
            (initialSearchState (getHexKey start.q start.r)) = .found p0 := by
          unfold findPathRun at hrun
          exact hrun
        have hloop := findPathLoop_found_passable grid rank
          (obstacles.map (fun o => getHexKey o.q o.r))
          (getHexKey start.q start.r) (getHexKey dest.q dest.r) dest rfl
          (Ne.symm hne0) MAX_ITERATIONS
          (initialSearchState (getHexKey start.q start.r)) p0
          (initial_searchInv _ _ _ _) hrun2
        refine ⟨fun c hc => (hloop c hc).1, ?_⟩
        intro c hc hrl
        rw [(hloop c hc).2] at hrl
        simp at hrl
      next hrun => simp at h
      next hrun =>
        split at h
        next hcond =>
          simp only [Option.some.injEq] at h
          subst h
          refine ⟨?_, ?_⟩
          · intro c hc
            have hc2 := List.mem_singleton.1 hc
            subst hc2
            exact hobs
          · intro c hc hrl
            have hc2 := List.mem_singleton.1 hc
            subst hc2
            exact ⟨rfl, hcond.1, hrun⟩
        · simp at h

/-- Witness for C3 on a concrete successful run. -/
theorem C3_paths_avoid_obstacles_and_locks_witness :
    findPath ⟨0, 0, false⟩ ⟨1, 0, false⟩ [] 0 [] = some [⟨1, 0, false⟩] ∧
    (getHexKey (1 : Int) 0 ∉ ([] : List HexCoord).map (fun o => getHexKey o.q o.r) ∧
     (∀ c ∈ [(⟨1, 0, false⟩ : HexCoord)],
        getHexKey c.q c.r ∉ ([] : List HexCoord).map (fun o => getHexKey o.q o.r)) ∧
     (∀ c ∈ [(⟨1, 0, false⟩ : HexCoord)],
        rankLocked [] 0 (getHexKey c.q c.r) = true →
        [(⟨1, 0, false⟩ : HexCoord)] = [⟨1, 0, false⟩] ∧
        cubeDistance ⟨0, 0, false⟩ ⟨1, 0, false⟩ = 1 ∧
        findPathRun ⟨0, 0, false⟩ ⟨1, 0, false⟩ [] 0 [] = .exhausted)) :=
  ⟨by decide,
   C3_paths_avoid_obstacles_and_locks ⟨0, 0, false⟩ ⟨1, 0, false⟩ [] 0 [] [⟨1, 0, false⟩]
     (by decide)⟩

/-- Counterexample to C3 as stated: walling the start in with five obstacles
exhausts the queue at once (the sixth neighbor, the destination, is
rank-locked with maxLevel 5 > rank 0 and never enqueued), and the fallback
then returns the path `[(1,0)]` onto the rank-locked destination tile. -/
theorem C3_counterexample_rank_locked_fallback :
    findPath ⟨0, 0, false⟩ ⟨1, 0, false⟩ [((1, 0), mkHex 1 0 0 5 0)] 0
      [⟨1, -1, false⟩, ⟨0, -1, false⟩, ⟨-1, 0, false⟩, ⟨-1, 1, false⟩, ⟨0, 1, false⟩]
      = some [⟨1, 0, false⟩] ∧
    rankLocked [((1, 0), mkHex 1 0 0 5 0)] 0 (getHexKey (1 : Int) 0) = true ∧
    (0 : Int) < (mkHex 1 0 0 5 0).maxLevel := by
  refine ⟨by decide, by decide, by decide⟩

/-- **C4** (amended). An adjacent non-obstacle destination yields a path
whenever the Dijkstra run does not hit the `MAX_ITERATIONS` cap: a found run
returns its path, and an exhausted run triggers the single-step fallback. A
capped run, contrary to the claim, returns `null` (see the counterexample). -/
theorem C4_adjacent_needs_uncapped_run (start dest : HexCoord) (grid : Grid)
    (rank : Int) (obstacles : List HexCoord)
    (hadj : cubeDistance start dest = 1)
    (hobs : getHexKey dest.q dest.r ∉ obstacles.map (fun o => getHexKey o.q o.r))
    (hcap : findPathRun start dest grid rank obstacles ≠ .capped) :
    ∃ p, findPath start dest grid rank obstacles = some p := by
  have hne := cubeDistance_ne_keys start dest hadj
  rcases hrun : findPathRun start dest grid rank obstacles with p | _ | _
  · refine ⟨p, ?_⟩
    rw [findPath]
    dsimp only
    rw [if_neg hne, if_neg hobs, hrun]
  · refine ⟨[dest], ?_⟩
    rw [findPath]
    dsimp only
    rw [if_neg hne, if_neg hobs, hrun, if_pos ⟨hadj, hobs⟩]
  · exact absurd hrun hcap

/-- Witness for C4 on a concrete adjacent run that finds the direct path. -/
theorem C4_adjacent_needs_uncapped_run_witness :
    (cubeDistance ⟨0, 0, false⟩ ⟨1, 0, false⟩ = 1 ∧
     getHexKey (1 : Int) 0 ∉ ([] : List HexCoord).map (fun o => getHexKey o.q o.r) ∧
     findPathRun ⟨0, 0, false⟩ ⟨1, 0, false⟩ [] 0 [] ≠ .capped) ∧
    ∃ p, findPath ⟨0, 0, false⟩ ⟨1, 0, false⟩ [] 0 [] = some p :=
  ⟨⟨by decide, by decide, by decide⟩,
   C4_adjacent_needs_uncapped_run ⟨0, 0, false⟩ ⟨1, 0, false⟩ [] 0 []
     (by decide) (by decide) (by decide)⟩

end Hexquest
